import Mathlib

/-
Verification of the operations compiler of oapi-codegen (pkg/codegen/operations.go).

The Go source is shallowly embedded: Go strings are Lean `String`s (lists of
characters), Go maps are association lists (`GoMap`) whose list order models
the arbitrary iteration order of a Go map, Go `(T, error)` returns are
`Except String T`, and a Go `panic` is embedded as an `Except.error` as well
(both abort the compilation).  Functions of the repository that live outside
the staged source file (the identifier normalizer, the schema resolver, the
sorted-key helpers of utils.go, pkg/util's media-type classifier) are
modelled from the specification; each such definition carries a doc comment
starting with `Modelled from the spec:`.
-/

namespace Codegen

/-! ## Go string primitives -/

/-- The `\x7b` character (an opening brace). -/
def lbrace : Char := Char.ofNat 123

/-- The `\x7d` character (a closing brace). -/
def rbrace : Char := Char.ofNat 125

/-- Split a character list at every occurrence of `sep`, keeping empty fields,
like Go's `strings.Split`. -/
def splitOnChar (sep : Char) : List Char → List (List Char)
  | [] => [[]]
  | c :: rest =>
    match splitOnChar sep rest with
    | [] => [[]]
    | s :: ss => if c = sep then [] :: s :: ss else (c :: s) :: ss

/-- Go's `strings.Split(s, sep)` for a one-character separator. -/
def goSplit (s : String) (sep : Char) : List String :=
  (splitOnChar sep s.data).map (fun l => String.mk l)

/-- Go's `strings.ToLower`. -/
def goToLower (s : String) : String := String.mk (s.data.map Char.toLower)

/-- Go's `strings.HasPrefix`. -/
def goHasPrefix (s pre : String) : Bool := pre.data.isPrefixOf s.data

/-- Go's `strings.HasSuffix`. -/
def goHasSuffix (s suf : String) : Bool := suf.data.reverse.isPrefixOf s.data.reverse

/-- Go's `strings.Contains` for a one-character needle. -/
def goContainsChar (s : String) (c : Char) : Bool := s.data.contains c

/-! ## Identifier normalizer (modelled) -/

/-- Modelled from the spec: the separator characters the identifier
normalizer collapses ("converts arbitrary specification names (snake_case,
kebab-case, free text) into target-language-legal ... identifiers"). -/
def isSeparator (c : Char) : Bool :=
  (['-', '#', '@', '!', '$', '&', '=', '.', '+', ':', ';', '_', '~', ' ',
    '(', ')', '[', ']', lbrace, rbrace]).contains c

/-- Walks the characters; a separator is dropped and capitalizes the next
letter, characters illegal in an identifier are stripped. -/
def toCamelCaseAux : Bool → List Char → List Char
  | _, [] => []
  | capNext, c :: rest =>
    if isSeparator c then toCamelCaseAux true rest
    else if !c.isAlphanum then toCamelCaseAux false rest
    else if capNext then c.toUpper :: toCamelCaseAux false rest
    else c :: toCamelCaseAux false rest

/-- Modelled from the spec: the identifier normalizer's camel-casing
(`ToCamelCase` of utils.go, not part of the staged source): "Collapses
separators, title-cases segments, strips characters illegal in the target
language's identifier grammar". -/
def ToCamelCase (s : String) : String := String.mk (toCamelCaseAux true s.data)

/-- Modelled from the spec: `typeNamePrefix` of utils.go (not part of the
staged source) "prefixes a disambiguating character if the result starts
with a digit"; for an identifier starting with a letter it adds nothing. -/
def typeNamePrefix (s : String) : String :=
  match s.data with
  | [] => ""
  | c :: _ => if c.isDigit then "N" else ""

/-! ## Default operation id synthesis (operations.go) -/

/-- `isPathParam` of operations.go: a segment of length at least two wrapped
in braces. -/
def isPathParam (part : String) : Bool :=
  if part.length < 2 then false
  else part.data.headD ' ' = lbrace && part.data.getLastD ' ' = rbrace

/-- `getPathParamCount` of operations.go: counts the parameter segments
(segments shorter than two characters are skipped). -/
def getPathParamCount (parts : List String) : Nat :=
  parts.foldl
    (fun count part =>
      if part.length < 2 then count
      else if isPathParam part then count + 1 else count)
    0

/-- `isSinglePathWithParams` of operations.go: the first two segments are not
parameters and every later segment is one. -/
def isSinglePathWithParams (parts : List String) : Bool :=
  parts.enum.all fun p =>
    if p.1 ≤ 1 then !isPathParam p.2 else isPathParam p.2

/-- The method switch shared by two branches of `generateDefaultOperationID`
(the canonical verb prefixes). -/
def verbPrefixedId (opName operationId resource : String) : String :=
  if opName = "GET" then "Read-" ++ resource
  else if opName = "POST" then "Create-" ++ resource
  else if opName = "PUT" then "Update-" ++ resource
  else operationId ++ "-" ++ resource

/-- The `operationId = operationId + "-" + part` folds of
`generateDefaultOperationID`, skipping empty segments. -/
def appendNonEmptyParts (operationId : String) (parts : List String) : String :=
  parts.foldl (fun acc part => if part = "" then acc else acc ++ "-" ++ part) operationId

/-- `generateDefaultOperationID` of operations.go.  Go's out-of-range panics
cannot occur on OpenAPI paths (which start with a slash, so `parts` has at
least two elements when indexed); indexing is embedded with `getD`. -/
def generateDefaultOperationID (opName : String) (requestPath : String)
    (pathOpCount : Nat) : Except String String :=
  let operationId := goToLower opName
  if opName = "" then .error "operation name cannot be an empty string"
  else if requestPath = "" then .error "request path cannot be an empty string"
  else
    let parts := goSplit requestPath '/'
    let pathParamCount := getPathParamCount parts
    if pathParamCount > 1 then
      (if isSinglePathWithParams parts then
        .ok (ToCamelCase (operationId ++ "-" ++ parts.getD 1 ""))
      else
        .ok (ToCamelCase (appendNonEmptyParts operationId parts)))
    else if parts.length = 2 then
      let operationId :=
        if opName = "GET" then
          (if parts.getD 1 "" = "healthz" then "Health-Check"
          else if pathOpCount > 1 then "Read-" ++ parts.getD 1 "" ++ "-List"
          else "Read-" ++ parts.getD 1 "")
        else if opName = "POST" then "Create-" ++ parts.getD 1 ""
        else if opName = "PUT" then "Update-" ++ parts.getD 1 ""
        else operationId ++ "-" ++ parts.getD 1 ""
      .ok (ToCamelCase operationId)
    else if 3 ≤ parts.length ∧ isPathParam (parts.getD 2 "") = true then
      let operationId := verbPrefixedId opName operationId (parts.getD 1 "")
      let operationId := appendNonEmptyParts operationId (parts.drop 3)
      let operationId :=
        if parts.getD 2 "" ≠ "\x7bid\x7d" then
          operationId ++ "-by-" ++ parts.getD 2 ""
        else operationId
      .ok (ToCamelCase operationId)
    else if pathParamCount = 0 then
      let operationId := verbPrefixedId opName operationId (parts.getD 1 "")
      .ok (ToCamelCase (appendNonEmptyParts operationId (parts.drop 2)))
    else
      .ok (ToCamelCase (appendNonEmptyParts operationId parts))

/-! ## Byte-order string comparison

Go compares strings bytewise; UTF-8 byte order coincides with codepoint
order, so the comparison is embedded as a structurally recursive codepoint
comparison (Lean's own `String` order does not reduce inside the kernel). -/

/-- Codepoint-lexicographic `<=` on character lists. -/
def charListLe : List Char → List Char → Bool
  | [], _ => true
  | _ :: _, [] => false
  | a :: as, b :: bs =>
    if a.toNat < b.toNat then true
    else if b.toNat < a.toNat then false
    else charListLe as bs

/-- Go's `<=` on strings (bytewise). -/
def strLe (a b : String) : Bool := charListLe a.data b.data

theorem charListLe_total : ∀ as bs : List Char,
    charListLe as bs = true ∨ charListLe bs as = true := by
  intro as
  induction as with
  | nil => intro bs; left; rfl
  | cons a as ih =>
    intro bs
    cases bs with
    | nil => right; rfl
    | cons b bs =>
      rcases Nat.lt_trichotomy a.toNat b.toNat with h | h | h
      · left; simp [charListLe, h]
      · rcases ih bs with h2 | h2
        · left; simp [charListLe, h, h2]
        · right; simp [charListLe, h.symm, h2]
      · right; simp [charListLe, h]

theorem charListLe_trans : ∀ as bs cs : List Char,
    charListLe as bs = true → charListLe bs cs = true → charListLe as cs = true := by
  intro as
  induction as with
  | nil => intro bs cs h1 h2; rfl
  | cons a as ih =>
    intro bs cs h1 h2
    cases bs with
    | nil => exact Bool.noConfusion h1
    | cons b bs =>
      cases cs with
      | nil => exact Bool.noConfusion h2
      | cons c cs =>
        simp only [charListLe] at h1 h2 ⊢
        rcases Nat.lt_trichotomy a.toNat b.toNat with hab | hab | hab
        · rcases Nat.lt_trichotomy b.toNat c.toNat with hbc | hbc | hbc
          · rw [if_pos (by omega)]
          · rw [if_pos (by omega)]
          · rw [if_neg (by omega), if_pos hbc] at h2; exact Bool.noConfusion h2
        · rw [if_neg (by omega), if_neg (by omega)] at h1
          rcases Nat.lt_trichotomy b.toNat c.toNat with hbc | hbc | hbc
          · rw [if_pos (by omega)]
          · rw [if_neg (by omega), if_neg (by omega)] at h2
            rw [if_neg (by omega), if_neg (by omega)]
            exact ih bs cs h1 h2
          · rw [if_neg (by omega), if_pos hbc] at h2; exact Bool.noConfusion h2
        · rw [if_neg (by omega), if_pos hab] at h1; exact Bool.noConfusion h1

theorem charListLe_antisymm : ∀ as bs : List Char,
    charListLe as bs = true → charListLe bs as = true → as = bs := by
  intro as
  induction as with
  | nil =>
    intro bs h1 h2
    cases bs with
    | nil => rfl
    | cons b bs => exact Bool.noConfusion h2
  | cons a as ih =>
    intro bs h1 h2
    cases bs with
    | nil => exact Bool.noConfusion h1
    | cons b bs =>
      simp only [charListLe] at h1 h2
      rcases Nat.lt_trichotomy a.toNat b.toNat with hab | hab | hab
      · rw [if_neg (by omega), if_pos hab] at h2; exact Bool.noConfusion h2
      · rw [if_neg (by omega), if_neg (by omega)] at h1
        rw [if_neg (by omega), if_neg (by omega)] at h2
        have hc : a = b := by rw [← Char.ofNat_toNat a, ← Char.ofNat_toNat b, hab]
        rw [hc, ih bs h1 h2]
      · rw [if_neg (by omega), if_pos hab] at h1; exact Bool.noConfusion h1

instance : IsTotal String (fun a b => strLe a b = true) :=
  ⟨fun a b => charListLe_total a.data b.data⟩

instance : IsTrans String (fun a b => strLe a b = true) :=
  ⟨fun a b c => charListLe_trans a.data b.data c.data⟩

instance : IsAntisymm String (fun a b => strLe a b = true) :=
  ⟨fun a b h1 h2 => by
    have hd := charListLe_antisymm a.data b.data h1 h2
    cases a; cases b; exact congrArg String.mk hd⟩

/-! ## Go maps as association lists

A Go map value is embedded as an association list whose list order models
the (arbitrary) iteration order of a `range` loop; Go maps have distinct
keys.  The compiler only reads maps through sorted key lists and key
lookups, which is what makes its output order-independent. -/

/-- A Go `map[string]α` with its iteration order made explicit. -/
abbrev GoMap (α : Type) := List (String × α)

/-- Indexing a Go map: the value at the first occurrence of the key. -/
def lookupGo {α : Type} : GoMap α → String → Option α
  | [], _ => none
  | (k, v) :: rest, key => if k = key then some v else lookupGo rest key

/-- The keys of a Go map, in iteration order. -/
def mapKeys {α : Type} (m : GoMap α) : List String := m.map Prod.fst

/-- Modelled from the spec: the `SortedXKeys` helpers of utils.go (not part
of the staged source): "iterating all document-level unordered collections
(paths, operations, responses, content-type maps, header maps, security
requirement maps) in sorted-key order".  The map's keys, sorted. -/
def sortedKeys {α : Type} (m : GoMap α) : List String :=
  List.insertionSort (fun a b => strLe a b = true) (mapKeys m)

/-- Go's `m[k]` for a key known to be present (absent keys yield the zero
value, embedded as a supplied default). -/
def lookupD {α : Type} (m : GoMap α) (k : String) (d : α) : α :=
  (lookupGo m k).getD d

/-! ## The parsed document model (the kin-openapi types operations.go reads) -/

/-- `openapi3.Encoding`: the fields operations.go copies. -/
structure EncodingSpec where
  ContentType : String := ""
  Style : String := ""
  Explode : Option Bool := none
  deriving DecidableEq, Repr, Inhabited

/-- The codegen `Property` (schema.go, modelled from the spec §3: "field
name, JSON/wire name, required flag, description, nested schema").  The
nested schema and extensions of the real record are consumed only by the
out-of-scope rendering stage and are omitted here. -/
structure Property where
  Description : String := ""
  JsonFieldName : String := ""
  Required : Bool := false
  NeedsFormTag : Bool := false
  deriving DecidableEq, Repr, Inhabited

/-- The codegen `Schema` descriptor (schema.go, modelled from the spec §3:
kind, target-language type expression, property list, free-form flag,
optional alias to a previously synthesized named type = `RefType`). -/
structure Schema where
  GoType : String := ""
  RefType : String := ""
  Description : String := ""
  Properties : List Property := []
  HasAdditionalProperties : Bool := false
  SkipOptionalPointer : Bool := false
  deriving DecidableEq, Repr, Inhabited

/-- The codegen `TypeDefinition` (schema.go, modelled from the spec §3:
"a (name, schema) pair representing a declaration"). -/
structure TypeDefinition where
  TypeName : String := ""
  Schema : Schema := {}
  deriving DecidableEq, Repr, Inhabited

/-- Modelled from the spec §6: the list of auxiliary boilerplate types a
synthesized schema carries (`Schema.GetAdditionalTypeDefs` of schema.go).
No claim depends on its contents; the resolver that fills it is out of the
staged source, so it is modelled as empty. -/
def Schema.GetAdditionalTypeDefs (_ : Schema) : List TypeDefinition := []

/-- `openapi3.SchemaRef`: a reference string plus the schema node payload
(only the parts the modelled resolver looks at). -/
structure SchemaNode where
  Ref : String := ""
  Props : List Property := []
  HasAdditional : Bool := false
  deriving DecidableEq, Repr, Inhabited

/-- `openapi3.MediaType`: the fields operations.go reads. -/
structure MediaType where
  Schema : Option SchemaNode := none
  Encoding : GoMap EncodingSpec := []
  deriving DecidableEq, Repr, Inhabited

/-- `openapi3.Parameter`: the fields operations.go reads. -/
structure Parameter where
  Name : String := ""
  In : String := ""
  Required : Bool := false
  Style : String := ""
  Explode : Option Bool := none
  Description : String := ""
  Schema : Option SchemaNode := none
  Content : GoMap MediaType := []
  Extensions : GoMap String := []
  deriving DecidableEq, Repr, Inhabited

/-- `openapi3.ParameterRef`. -/
structure ParameterRef where
  Ref : String := ""
  Value : Parameter := {}
  deriving DecidableEq, Repr, Inhabited

/-! ## Modelled helpers from outside the staged source -/

/-- Modelled from the spec: `util.IsMediaTypeJson` (pkg/util, not part of
the staged source): recognizes the structured-data (JSON) content-type
family — `application/json` and any media type with a `+json` suffix. -/
def IsMediaTypeJson (mediaType : String) : Bool :=
  mediaType = "application/json" || goHasSuffix mediaType "+json"

/-- Modelled from the spec: `IsGoTypeReference` of utils.go (not part of the
staged source): a non-empty `$ref` into a document (`#/components/...`), as
opposed to a whole-document reference. -/
def IsGoTypeReference (ref : String) : Bool :=
  ref ≠ "" && goContainsChar ref '#'

/-- Modelled from the spec: `SchemaNameToTypeName` of utils.go (not part of
the staged source): normalizes a specification name into a type identifier
(camel-casing plus the digit-prefix rule). -/
def SchemaNameToTypeName (s : String) : String :=
  let n := ToCamelCase s
  typeNamePrefix n ++ n

/-- Modelled from the spec: `RefPathToGoType` of utils.go (not part of the
staged source): `#/components/schemas/custom_type` becomes `CustomType`;
a reference of unexpected depth is an error. -/
def RefPathToGoType (ref : String) : Except String String :=
  let parts := goSplit ref '/'
  if parts.length = 4 then .ok (SchemaNameToTypeName (parts.getD 3 ""))
  else .error ("unexpected reference depth: " ++ ref)

/-- Modelled from the spec §4.2: the schema resolver
(`GenerateGoSchema` of schema.go, not part of the staged source).
A `$ref` to a document-level named schema aliases that name directly
(`RefType`); an inline node synthesizes a descriptor named from the hint
path; an absent node is a free-form value. -/
def GenerateGoSchema (sref : Option SchemaNode) (path : List String) : Except String Schema :=
  match sref with
  | none => .ok { GoType := "interface" }
  | some s =>
    if IsGoTypeReference s.Ref then
      match RefPathToGoType s.Ref with
      | .ok t => .ok { GoType := t, RefType := t, Properties := s.Props,
                       HasAdditionalProperties := s.HasAdditional }
      | .error e => .error e
    else
      .ok { GoType := String.intercalate "_" path, Properties := s.Props,
            HasAdditionalProperties := s.HasAdditional }

/-- Modelled from the spec §4.3: `paramToGoType` of schema.go (not part of
the staged source) resolves a declared parameter's schema node to a type
descriptor. -/
def paramToGoType (param : Parameter) (path : List String) : Except String Schema :=
  GenerateGoSchema param.Schema path

/-- Modelled from the spec: `GenStructFromSchema` of schema.go (not part of
the staged source): the deterministic struct text generated from a
descriptor's property list (form-tagged properties render differently). -/
def GenStructFromSchema (s : Schema) : String :=
  "struct " ++ String.intercalate " " (s.Properties.map fun p =>
    p.JsonFieldName ++ (if p.NeedsFormTag then ":form" else ""))

/-! ## ParameterDefinition (operations.go) -/

/-- `ParameterDefinition` of operations.go. -/
structure ParameterDefinition where
  ParamName : String := ""
  In : String := ""
  Required : Bool := false
  Spec : Parameter := {}
  Schema : Schema := {}
  deriving DecidableEq, Repr, Inhabited

/-- `ParameterDefinition.IsJson`: exactly one declared content type and it
is in the JSON family. -/
def ParameterDefinition.IsJson (pd : ParameterDefinition) : Bool :=
  if pd.Spec.Content.length = 1 then
    pd.Spec.Content.any fun kv => IsMediaTypeJson kv.1
  else false

/-- `ParameterDefinition.IsPassThrough`: more than one declared content
type, or exactly one that is not JSON. -/
def ParameterDefinition.IsPassThrough (pd : ParameterDefinition) : Bool :=
  if pd.Spec.Content.length > 1 then true
  else if pd.Spec.Content.length = 1 then !pd.IsJson
  else false

/-- `ParameterDefinition.IsStyled`: the parameter declares a schema. -/
def ParameterDefinition.IsStyled (pd : ParameterDefinition) : Bool :=
  pd.Spec.Schema.isSome

/-- `ParameterDefinition.Style`: the declared style, defaulted by location
when empty; the Go code panics on any other location (embedded as an
error). -/
def ParameterDefinition.Style (pd : ParameterDefinition) : Except String String :=
  if pd.Spec.Style = "" then
    if pd.Spec.In = "path" ∨ pd.Spec.In = "header" then .ok "simple"
    else if pd.Spec.In = "query" ∨ pd.Spec.In = "cookie" then .ok "form"
    else .error "unknown parameter format"
  else .ok pd.Spec.Style

/-- `ParameterDefinition.Explode`: the declared explode flag, defaulted by
location when absent; the Go code panics on any other location (embedded as
an error). -/
def ParameterDefinition.Explode (pd : ParameterDefinition) : Except String Bool :=
  match pd.Spec.Explode with
  | none =>
    if pd.Spec.In = "path" ∨ pd.Spec.In = "header" then .ok false
    else if pd.Spec.In = "query" ∨ pd.Spec.In = "cookie" then .ok true
    else .error "unknown parameter format"
  | some b => .ok b

/-- `ParameterDefinitions.FindByName` of operations.go: the first parameter
with the given name, or nothing. -/
def FindByName : List ParameterDefinition → String → Option ParameterDefinition
  | [], _ => none
  | param :: rest, name =>
    if param.ParamName = name then some param else FindByName rest name

/-- C1: with no document operation id, `generateDefaultOperationID` derives
one from the method and path: `GET /pets/\x7bid\x7d` gives `ReadPets` (the
`-by-id` suffix is exempted for the literal `\x7bid\x7d` parameter),
`POST /pets` gives `CreatePets`, and `GET /healthz` gives `HealthCheck`;
the result is a deterministic function of method and path (the operation
count of the path does not enter these cases). -/
theorem C1_generateDefaultOperationID (pathOpCount : Nat) :
    generateDefaultOperationID "GET" "/pets/\x7bid\x7d" pathOpCount = .ok "ReadPets" ∧
    generateDefaultOperationID "POST" "/pets" pathOpCount = .ok "CreatePets" ∧
    generateDefaultOperationID "GET" "/healthz" pathOpCount = .ok "HealthCheck" := by
  refine ⟨?_, ?_, ?_⟩ <;> rfl

/-! ## Claims C2, C6, C8: parameter style/explode resolution and
pass-through classification -/

/-- C2: a parameter whose document omits the style resolves to `simple` for
path/header and to `form` for query/cookie locations; an omitted explode
resolves to `false` for path/header and `true` for query/cookie; an explicit
document style or explode value is always returned unchanged. -/
theorem C2_style_explode_defaults (pd : ParameterDefinition) :
    (pd.Spec.Style = "" →
      ((pd.Spec.In = "path" ∨ pd.Spec.In = "header") → pd.Style = .ok "simple") ∧
      ((pd.Spec.In = "query" ∨ pd.Spec.In = "cookie") → pd.Style = .ok "form")) ∧
    (pd.Spec.Explode = none →
      ((pd.Spec.In = "path" ∨ pd.Spec.In = "header") → pd.Explode = .ok false) ∧
      ((pd.Spec.In = "query" ∨ pd.Spec.In = "cookie") → pd.Explode = .ok true)) ∧
    (pd.Spec.Style ≠ "" → pd.Style = .ok pd.Spec.Style) ∧
    (∀ b : Bool, pd.Spec.Explode = some b → pd.Explode = .ok b) := by
  refine ⟨fun hs => ⟨fun hin => ?_, fun hin => ?_⟩,
          fun he => ⟨fun hin => ?_, fun hin => ?_⟩,
          fun hs => ?_, fun b hb => ?_⟩
  · rcases hin with h | h <;> rw [ParameterDefinition.Style, hs, h] <;> rfl
  · rcases hin with h | h <;> rw [ParameterDefinition.Style, hs, h] <;> rfl
  · rcases hin with h | h <;> rw [ParameterDefinition.Explode, he, h] <;> rfl
  · rcases hin with h | h <;> rw [ParameterDefinition.Explode, he, h] <;> rfl
  · rw [ParameterDefinition.Style, if_neg hs]
  · rw [ParameterDefinition.Explode, hb]

/-- A concrete parameter with a single declared JSON content type and no
schema: the input the claim C6 asserts to be pass-through. -/
def c6JsonParam : ParameterDefinition :=
  { ParamName := "p", In := "query",
    Spec := { Name := "p", In := "query", Schema := none,
              Content := [("application/json", {})] } }

/-- C6 counterexample: a parameter with no schema and exactly one declared
content type is NOT always pass-through — when that single content type is
JSON, `IsPassThrough` returns `false` (the parameter is JSON-encoded
instead). -/
theorem C6_counterexample :
    c6JsonParam.Spec.Schema = none ∧
    c6JsonParam.Spec.Content.length = 1 ∧
    c6JsonParam.IsPassThrough = false := by
  refine ⟨rfl, rfl, rfl⟩

/-- C6 (amended): a parameter with more than one declared content type is
always pass-through regardless of schema presence; a parameter with exactly
one declared content type is pass-through precisely when that content type
is not in the JSON family; with no declared content type it is not
pass-through. -/
theorem C6_passthrough_amended (pd : ParameterDefinition) :
    (pd.Spec.Content.length > 1 → pd.IsPassThrough = true) ∧
    (pd.Spec.Content.length = 1 → pd.IsPassThrough = !pd.IsJson) ∧
    (pd.Spec.Content.length = 0 → pd.IsPassThrough = false) := by
  refine ⟨fun h => ?_, fun h => ?_, fun h => ?_⟩
  · rw [ParameterDefinition.IsPassThrough, if_pos h]
  · rw [ParameterDefinition.IsPassThrough, if_neg (by omega), if_pos h]
  · rw [ParameterDefinition.IsPassThrough, if_neg (by omega), if_neg (by omega)]

/-- A concrete parameter with an unsupported `in` location but an explicit
style and explode. -/
def c8StyledParam : ParameterDefinition :=
  { ParamName := "b", In := "body",
    Spec := { Name := "b", In := "body", Style := "matrix", Explode := some true } }

/-- C8 counterexample: for a parameter whose `in` location is not
path/query/header/cookie, resolving style and explode is not always a hard
error — an explicit document value is returned without any location check. -/
theorem C8_counterexample :
    c8StyledParam.Spec.In = "body" ∧
    c8StyledParam.Style = .ok "matrix" ∧
    c8StyledParam.Explode = .ok true := by
  refine ⟨rfl, rfl, rfl⟩

/-- C8 (amended): for a parameter whose `in` location is not one of path,
query, header or cookie, resolving an OMITTED style or explode aborts
(the Go code panics with "unknown parameter format", embedded as an error);
an explicit document value is returned regardless of the location. -/
theorem C8_unknown_location_error (pd : ParameterDefinition)
    (h1 : pd.Spec.In ≠ "path") (h2 : pd.Spec.In ≠ "query")
    (h3 : pd.Spec.In ≠ "header") (h4 : pd.Spec.In ≠ "cookie") :
    (pd.Spec.Style = "" → pd.Style = .error "unknown parameter format") ∧
    (pd.Spec.Explode = none → pd.Explode = .error "unknown parameter format") ∧
    (pd.Spec.Style ≠ "" → pd.Style = .ok pd.Spec.Style) ∧
    (∀ b : Bool, pd.Spec.Explode = some b → pd.Explode = .ok b) := by
  have hsimple : ¬(pd.Spec.In = "path" ∨ pd.Spec.In = "header") := by
    rintro (h | h) <;> [exact h1 h; exact h3 h]
  have hform : ¬(pd.Spec.In = "query" ∨ pd.Spec.In = "cookie") := by
    rintro (h | h) <;> [exact h2 h; exact h4 h]
  refine ⟨fun hs => ?_, fun he => ?_, fun hs => ?_, fun b hb => ?_⟩
  · rw [ParameterDefinition.Style, if_pos hs, if_neg hsimple, if_neg hform]
  · rw [ParameterDefinition.Explode, he, if_neg hsimple, if_neg hform]
  · rw [ParameterDefinition.Style, if_neg hs]
  · rw [ParameterDefinition.Explode, hb]

/-- A concrete parameter with an unsupported `in` location and no declared
style or explode. -/
def c8BareParam : ParameterDefinition :=
  { ParamName := "b", In := "body", Spec := { Name := "b", In := "body" } }

/-- C8 witness: the amended statement at a concrete parameter. -/
theorem C8_unknown_location_error_witness :
    c8BareParam.Style = .error "unknown parameter format" ∧
    c8BareParam.Explode = .error "unknown parameter format" := by
  have h := C8_unknown_location_error c8BareParam
    (by decide) (by decide) (by decide) (by decide)
  exact ⟨h.1 rfl, h.2.1 rfl⟩

/-! ## Request bodies (operations.go: GenerateBodyDefinitions) -/

/-- `openapi3.RequestBody`: the fields operations.go reads. -/
structure RequestBody where
  Required : Bool := false
  Content : GoMap MediaType := []
  deriving DecidableEq, Repr, Inhabited

/-- `openapi3.RequestBodyRef`. -/
structure RequestBodyRef where
  Ref : String := ""
  Value : RequestBody := {}
  deriving DecidableEq, Repr, Inhabited

/-- `RequestBodyEncoding` of operations.go. -/
structure RequestBodyEncoding where
  ContentType : String := ""
  Style : String := ""
  Explode : Option Bool := none
  deriving DecidableEq, Repr, Inhabited

/-- `RequestBodyDefinition` of operations.go. -/
structure RequestBodyDefinition where
  Required : Bool := false
  Schema : Schema := {}
  NameTag : String := ""
  ContentType : String := ""
  Default : Bool := false
  Encoding : GoMap RequestBodyEncoding := []
  deriving DecidableEq, Repr, Inhabited

/-- `RequestBodyDefinition.Suffix`: the default body is never suffixed; any
other body is suffixed by its family tag. -/
def RequestBodyDefinition.Suffix (r : RequestBodyDefinition) : String :=
  if r.Default then "" else "With" ++ r.NameTag ++ "Body"

/-- `SortedContentKeys` applied to a content map (utils.go, modelled by
`sortedKeys`). -/
abbrev SortedContentKeys (m : GoMap MediaType) : List String := sortedKeys m

/-- The content-type `switch` of `GenerateBodyDefinitions`: the recognized
family tag and whether that family is the default body, or `none` for an
unrecognized content type (which falls to the pass-through branch). -/
def classifyBodyContentType (contentType : String) : Option (String × Bool) :=
  if IsMediaTypeJson contentType then some ("JSON", true)
  else if goHasPrefix contentType "multipart/" then some ("Multipart", false)
  else if contentType = "application/x-www-form-urlencoded" then some ("Formdata", false)
  else if contentType = "text/plain" then some ("Text", false)
  else none

/-- The reference step of `GenerateBodyDefinitions` (lines 759-767 of
operations.go): when the content schema node is a reference to a pre-defined
type, the body schema aliases the referenced Go type. -/
def resolveBodyRefType (snode : SchemaNode) (bodySchema : Schema) : Except String Schema :=
  if IsGoTypeReference snode.Ref then
    match RefPathToGoType snode.Ref with
    | .ok refType => .ok { bodySchema with RefType := refType }
    | .error err => .error ("error turning reference (" ++ snode.Ref
        ++ ") into a Go type: " ++ err)
  else .ok bodySchema

/-- The inline-type step of `GenerateBodyDefinitions` (lines 772-791 of
operations.go): when the resolved body schema is not a reference to a
pre-defined type, a named type is synthesized for it — a form-encoded body
first gets its properties form-tagged and its struct text regenerated — and
the body schema becomes a reference to that new name. -/
def synthesizeBodyType (bodyTypeName contentType : String) (bodySchema : Schema) :
    Schema × List TypeDefinition :=
  if bodySchema.RefType = "" then
    let bodySchema :=
      if contentType = "application/x-www-form-urlencoded" then
        let s : Schema := { bodySchema with
          Properties := bodySchema.Properties.map fun p =>
            { p with NeedsFormTag := true } }
        { s with GoType := GenStructFromSchema s }
      else bodySchema
    let td : TypeDefinition := { TypeName := bodyTypeName, Schema := bodySchema }
    ({ bodySchema with RefType := bodyTypeName }, [td])
  else (bodySchema, [])

/-- The loop body of `GenerateBodyDefinitions` over the sorted content-type
keys; returns the body definitions and synthesized type definitions in
iteration order. -/
def bodyLoop (operationID : String) (body : RequestBody) :
    List String → Except String (List RequestBodyDefinition × List TypeDefinition)
  | [] => .ok ([], [])
  | contentType :: rest =>
    let content := lookupD body.Content contentType {}
    match classifyBodyContentType contentType with
    | none =>
      -- unrecognized content type: pass-through definition, no schema
      let bd : RequestBodyDefinition :=
        { Required := body.Required, ContentType := contentType }
      match bodyLoop operationID body rest with
      | .error e => .error e
      | .ok (bds, tds) => .ok (bd :: bds, tds)
    | some (tag, defaultBody) =>
      let bodyTypeName := operationID ++ tag ++ "Body"
      match GenerateGoSchema content.Schema [bodyTypeName] with
      | .error err => .error ("error generating request body definition: " ++ err)
      | .ok bodySchema =>
        -- the Go code dereferences content.Schema.Ref unconditionally here;
        -- a nil schema pointer panics (embedded as an error)
        match content.Schema with
        | none => .error "invalid memory address or nil pointer dereference"
        | some snode =>
          match resolveBodyRefType snode bodySchema with
          | .error e => .error e
          | .ok bodySchema =>
            let st := synthesizeBodyType bodyTypeName contentType bodySchema
            let bodySchema := st.1
            let tds0 := st.2
            let bd : RequestBodyDefinition :=
              { Required := body.Required, Schema := bodySchema, NameTag := tag,
                ContentType := contentType, Default := defaultBody,
                -- the Go code copies content.Encoding into a fresh map;
                -- entry-wise copy, order immaterial for a map value
                Encoding := content.Encoding.map fun kv =>
                  (kv.1, { ContentType := kv.2.ContentType, Style := kv.2.Style,
                           Explode := kv.2.Explode }) }
            match bodyLoop operationID body rest with
            | .error e => .error e
            | .ok (bds, tds) => .ok (bd :: bds, tds0 ++ tds)

/-- `GenerateBodyDefinitions` of operations.go.  The final `sort.Slice` by
`ContentType <` is embedded as an insertion sort by `ContentType ≤`
(content-type keys are distinct, so the strictly sorted arrangement is
unique and the two agree). -/
def GenerateBodyDefinitions (operationID : String) (bodyOrRef : Option RequestBodyRef) :
    Except String (List RequestBodyDefinition × List TypeDefinition) :=
  match bodyOrRef with
  | none => .ok ([], [])
  | some bodyOrRef =>
    let body := bodyOrRef.Value
    match bodyLoop operationID body (SortedContentKeys body.Content) with
    | .error e => .error e
    | .ok (bodyDefinitions, typeDefinitions) =>
      .ok (List.insertionSort (fun a b => strLe a.ContentType b.ContentType = true)
            bodyDefinitions,
           typeDefinitions)

/-! ## Claims C4 and C10 -/

/-- The content-type switch leaves a content type untagged exactly when it
is in no recognized family; in particular it is then not JSON. -/
theorem classify_none_json {ct : String} (h : classifyBodyContentType ct = none) :
    IsMediaTypeJson ct = false := by
  by_cases h1 : IsMediaTypeJson ct = true
  · rw [classifyBodyContentType, if_pos h1] at h; cases h
  · simpa using h1

/-- What the content-type switch guarantees about a recognized family tag:
the default mark coincides with JSON membership, the JSON tag characterizes
the JSON family, and a recognized tag is non-empty. -/
theorem classify_some_spec {ct tag : String} {dflt : Bool}
    (h : classifyBodyContentType ct = some (tag, dflt)) :
    dflt = IsMediaTypeJson ct ∧ (tag = "JSON" ↔ IsMediaTypeJson ct = true) ∧ tag ≠ "" := by
  unfold classifyBodyContentType at h
  by_cases h1 : IsMediaTypeJson ct = true
  · rw [if_pos h1] at h
    simp only [Option.some.injEq, Prod.mk.injEq] at h
    obtain ⟨rfl, rfl⟩ := h
    simp [h1]
  · rw [if_neg h1] at h
    have h1f : IsMediaTypeJson ct = false := by simpa using h1
    split_ifs at h with h2 h3 h4 <;>
      simp only [Option.some.injEq, Prod.mk.injEq] at h <;>
      obtain ⟨rfl, rfl⟩ := h <;>
      simp [h1f]

/-- Every body definition the loop of `GenerateBodyDefinitions` emits is
marked default exactly when its content type is JSON, and tagged `JSON`
exactly when its content type is JSON. -/
theorem bodyLoop_mem_spec (operationID : String) (body : RequestBody)
    (ks : List String) :
    ∀ (bds : List RequestBodyDefinition) (tds : List TypeDefinition),
      bodyLoop operationID body ks = .ok (bds, tds) →
      ∀ bd ∈ bds, bd.Default = IsMediaTypeJson bd.ContentType ∧
        (bd.NameTag = "JSON" ↔ IsMediaTypeJson bd.ContentType = true) := by
  induction ks with
  | nil =>
    intro bds tds h bd hbd
    simp only [bodyLoop, Except.ok.injEq, Prod.mk.injEq] at h
    obtain ⟨rfl, rfl⟩ := h
    cases hbd
  | cons k rest ih =>
    intro bds tds h bd hbd
    simp only [bodyLoop] at h
    rcases hcl : classifyBodyContentType k with _ | ⟨tag, dflt⟩ <;> simp only [hcl] at h
    · rcases hr : bodyLoop operationID body rest with e | ⟨bds1, tds1⟩
      · simp [hr] at h
      · simp only [hr, Except.ok.injEq, Prod.mk.injEq] at h
        obtain ⟨rfl, rfl⟩ := h
        rcases List.mem_cons.mp hbd with rfl | hmem
        · refine ⟨(classify_none_json hcl).symm, ?_⟩
          rw [classify_none_json hcl]
          simp only [Bool.false_eq_true, iff_false]
          decide
        · exact ih bds1 tds1 hr bd hmem
    · rcases hg : GenerateGoSchema (lookupD body.Content k {}).Schema [operationID ++ tag ++ "Body"]
        with e | bodySchema
      · simp [hg] at h
      · simp only [hg] at h
        rcases hs : (lookupD body.Content k {}).Schema with _ | snode
        · simp [hs] at h
        · simp only [hs] at h
          rcases hrt : resolveBodyRefType snode bodySchema with e | bodySchema2
          · simp [hrt] at h
          · simp only [hrt] at h
            rcases hr : bodyLoop operationID body rest with e | ⟨bds1, tds1⟩
            · simp [hr] at h
            · simp only [hr, Except.ok.injEq, Prod.mk.injEq] at h
              obtain ⟨rfl, rfl⟩ := h
              rcases List.mem_cons.mp hbd with rfl | hmem
              · obtain ⟨hd, hj, _⟩ := classify_some_spec hcl
                exact ⟨hd, hj⟩
              · exact ih bds1 tds1 hr bd hmem

/-- The octet-stream request body of the claim: a single unrecognized
content type. -/
def c4OctetBody : RequestBodyRef :=
  { Value := { Required := true,
               Content := [("application/vnd.custom+octet-stream", {})] } }

/-- The body definition generated for the octet-stream body: untagged, no
resolved schema, not default. -/
def c4OctetDef : RequestBodyDefinition :=
  { Required := true, ContentType := "application/vnd.custom+octet-stream" }

/-- The two-content-type request body of the claim (given in unsorted
document order: `text/plain` first). -/
def c4JsonTextBody : RequestBodyRef :=
  { Value := { Content := [("text/plain", { Schema := some {} }),
                           ("application/json", { Schema := some {} })] } }

/-- The JSON body definition generated for `c4JsonTextBody`. -/
def c4JsonDef : RequestBodyDefinition :=
  { Schema := { GoType := "OpJSONBody", RefType := "OpJSONBody" },
    NameTag := "JSON", ContentType := "application/json", Default := true }

/-- The plain-text body definition generated for `c4JsonTextBody`. -/
def c4TextDef : RequestBodyDefinition :=
  { Schema := { GoType := "OpTextBody", RefType := "OpTextBody" },
    NameTag := "Text", ContentType := "text/plain" }

/-- The type definition synthesized for the inline JSON body schema. -/
def c4JsonTd : TypeDefinition :=
  { TypeName := "OpJSONBody", Schema := { GoType := "OpJSONBody" } }

/-- The type definition synthesized for the inline plain-text body schema. -/
def c4TextTd : TypeDefinition :=
  { TypeName := "OpTextBody", Schema := { GoType := "OpTextBody" } }

/-- C4: `GenerateBodyDefinitions` classifies each declared content type into
a family tag or leaves it untagged; a body definition is marked default
exactly when its content type is in the JSON family, the default body's
`Suffix` is empty while every non-default body is suffixed by its family
tag; a body declaring only `application/vnd.custom+octet-stream` yields one
untagged definition with no synthesized type, and a body declaring
`application/json` and `text/plain` yields two definitions with the JSON
one default (no suffix) and the plain-text one suffixed `WithTextBody`. -/
theorem C4_body_definitions :
    (∀ (operationID : String) (bodyOrRef : Option RequestBodyRef) defs tds,
        GenerateBodyDefinitions operationID bodyOrRef = .ok (defs, tds) →
        ∀ bd ∈ defs,
          bd.Default = IsMediaTypeJson bd.ContentType ∧
          (bd.NameTag = "JSON" ↔ IsMediaTypeJson bd.ContentType = true) ∧
          (bd.Default = true → bd.Suffix = "") ∧
          (bd.Default = false → bd.Suffix = "With" ++ bd.NameTag ++ "Body")) ∧
    GenerateBodyDefinitions "Op" (some c4OctetBody) = .ok ([c4OctetDef], []) ∧
    c4OctetDef.NameTag = "" ∧ c4OctetDef.Schema = {} ∧ c4OctetDef.Default = false ∧
    GenerateBodyDefinitions "Op" (some c4JsonTextBody) =
      .ok ([c4JsonDef, c4TextDef], [c4JsonTd, c4TextTd]) ∧
    c4JsonDef.Default = true ∧ c4JsonDef.Suffix = "" ∧ c4JsonDef.NameTag = "JSON" ∧
    c4TextDef.Default = false ∧ c4TextDef.Suffix = "WithTextBody" ∧
    c4TextDef.NameTag = "Text" := by
  refine ⟨?_, by rfl, rfl, rfl, rfl, by rfl, rfl, rfl, rfl, rfl, rfl, rfl⟩
  intro operationID bodyOrRef defs tds h bd hbd
  have hsfx1 : bd.Default = true → bd.Suffix = "" := fun hd => by
    rw [RequestBodyDefinition.Suffix, if_pos hd]
  have hsfx2 : bd.Default = false → bd.Suffix = "With" ++ bd.NameTag ++ "Body" := fun hd => by
    rw [RequestBodyDefinition.Suffix, if_neg (by rw [hd]; exact Bool.false_ne_true)]
  rcases bodyOrRef with _ | bref
  · simp only [GenerateBodyDefinitions, Except.ok.injEq, Prod.mk.injEq] at h
    obtain ⟨rfl, rfl⟩ := h
    cases hbd
  · simp only [GenerateBodyDefinitions] at h
    rcases hr : bodyLoop operationID bref.Value (SortedContentKeys bref.Value.Content)
      with e | ⟨bds1, tds1⟩ <;> rw [hr] at h
    · cases h
    · simp only [Except.ok.injEq, Prod.mk.injEq] at h
      obtain ⟨rfl, rfl⟩ := h
      have hmem : bd ∈ bds1 :=
        (List.perm_insertionSort
          (fun a b => strLe a.ContentType b.ContentType = true) bds1).mem_iff.mp hbd
      obtain ⟨h1, h2⟩ := bodyLoop_mem_spec operationID bref.Value _ bds1 tds1 hr bd hmem
      exact ⟨h1, h2, hsfx1, hsfx2⟩

instance : IsTotal RequestBodyDefinition (fun a b => strLe a.ContentType b.ContentType = true) :=
  ⟨fun a b => charListLe_total a.ContentType.data b.ContentType.data⟩

instance : IsTrans RequestBodyDefinition (fun a b => strLe a.ContentType b.ContentType = true) :=
  ⟨fun a b c => charListLe_trans a.ContentType.data b.ContentType.data c.ContentType.data⟩

/-- C10: the request-body definitions returned by `GenerateBodyDefinitions`
are sorted in ascending lexicographic order of their content-type string,
whatever order the document declares the content types in. -/
theorem C10_bodies_sorted (operationID : String) (bodyOrRef : Option RequestBodyRef)
    (defs : List RequestBodyDefinition) (tds : List TypeDefinition)
    (h : GenerateBodyDefinitions operationID bodyOrRef = .ok (defs, tds)) :
    List.Sorted (fun a b => strLe a.ContentType b.ContentType = true) defs := by
  rcases bodyOrRef with _ | bref
  · simp only [GenerateBodyDefinitions, Except.ok.injEq, Prod.mk.injEq] at h
    obtain ⟨rfl, rfl⟩ := h
    exact List.sorted_nil
  · simp only [GenerateBodyDefinitions] at h
    rcases hr : bodyLoop operationID bref.Value (SortedContentKeys bref.Value.Content)
      with e | ⟨bds1, tds1⟩ <;> rw [hr] at h
    · cases h
    · simp only [Except.ok.injEq, Prod.mk.injEq] at h
      obtain ⟨rfl, rfl⟩ := h
      exact List.sorted_insertionSort
        (fun a b => strLe a.ContentType b.ContentType = true) bds1

/-- C10 witness: the sortedness of the concrete output for the
json-plus-text body (declared in the opposite order). -/
theorem C10_bodies_sorted_witness :
    List.Sorted (fun a b : RequestBodyDefinition => strLe a.ContentType b.ContentType = true)
      [c4JsonDef, c4TextDef] :=
  C10_bodies_sorted "Op" (some c4JsonTextBody) [c4JsonDef, c4TextDef]
    [c4JsonTd, c4TextTd] (by rfl)


/-! ## Responses (operations.go: GenerateResponseDefinitions) -/

/-- `openapi3.Header`: the schema field operations.go reads. -/
structure HeaderObj where
  Schema : Option SchemaNode := none
  deriving DecidableEq, Repr, Inhabited

/-- `openapi3.HeaderRef`. -/
structure HeaderRef where
  Ref : String := ""
  Value : HeaderObj := {}
  deriving DecidableEq, Repr, Inhabited

/-- `openapi3.Response`: the fields operations.go reads. -/
structure Response where
  Description : Option String := none
  Content : GoMap MediaType := []
  Headers : GoMap HeaderRef := []
  deriving DecidableEq, Repr, Inhabited

/-- `openapi3.ResponseRef`. -/
structure ResponseRef where
  Ref : String := ""
  Value : Response := {}
  deriving DecidableEq, Repr, Inhabited

/-- `openapi3.Responses`: a map whose entries are pointers and may be nil
(operations.go line 824 skips nil entries). -/
abbrev Responses := GoMap (Option ResponseRef)

/-- `ResponseContentDefinition` of operations.go. -/
structure ResponseContentDefinition where
  Schema : Schema := {}
  ContentType : String := ""
  NameTag : String := ""
  deriving DecidableEq, Repr, Inhabited

/-- `ResponseHeaderDefinition` of operations.go. -/
structure ResponseHeaderDefinition where
  Name : String := ""
  GoName : String := ""
  Schema : Schema := {}
  deriving DecidableEq, Repr, Inhabited

/-- `ResponseDefinition` of operations.go. -/
structure ResponseDefinition where
  StatusCode : String := ""
  Description : String := ""
  Contents : List ResponseContentDefinition := []
  Headers : List ResponseHeaderDefinition := []
  Ref : String := ""
  deriving DecidableEq, Repr, Inhabited

/-- `ResponseDefinition.IsRef`. -/
def ResponseDefinition.IsRef (r : ResponseDefinition) : Bool := r.Ref ≠ ""

/-- `SortedResponsesKeys` (utils.go, modelled by `sortedKeys`). -/
abbrev SortedResponsesKeys (m : Responses) : List String := sortedKeys m

/-- `SortedHeadersKeys` (utils.go, modelled by `sortedKeys`). -/
abbrev SortedHeadersKeys (m : GoMap HeaderRef) : List String := sortedKeys m

/-- The content-type `switch` of `GenerateResponseDefinitions` (its branch
order differs from the request-body switch): the recognized family tag, or
`none` for an unrecognized content type. -/
def classifyResponseContentType (contentType : String) : Option String :=
  if IsMediaTypeJson contentType then some "JSON"
  else if contentType = "application/x-www-form-urlencoded" then some "Formdata"
  else if goHasPrefix contentType "multipart/" then some "Multipart"
  else if contentType = "text/plain" then some "Text"
  else none

/-- The per-response content loop of `GenerateResponseDefinitions`, over the
sorted content-type keys. -/
def respContentLoop (operationID statusCode : String) (content : GoMap MediaType) :
    List String → Except String (List ResponseContentDefinition)
  | [] => .ok []
  | contentType :: rest =>
    let contentV := lookupD content contentType {}
    match classifyResponseContentType contentType with
    | none =>
      let rcd : ResponseContentDefinition := { ContentType := contentType }
      match respContentLoop operationID statusCode content rest with
      | .error e => .error e
      | .ok rcds => .ok (rcd :: rcds)
    | some tag =>
      let responseTypeName := operationID ++ statusCode ++ tag ++ "Response"
      match GenerateGoSchema contentV.Schema [responseTypeName] with
      | .error err => .error ("error generating request body definition: " ++ err)
      | .ok contentSchema =>
        let rcd : ResponseContentDefinition :=
          { ContentType := contentType, NameTag := tag, Schema := contentSchema }
        match respContentLoop operationID statusCode content rest with
        | .error e => .error e
        | .ok rcds => .ok (rcd :: rcds)

/-- The per-response header loop of `GenerateResponseDefinitions`, over the
sorted header names. -/
def respHeaderLoop (headers : GoMap HeaderRef) :
    List String → Except String (List ResponseHeaderDefinition)
  | [] => .ok []
  | headerName :: rest =>
    let header := lookupD headers headerName {}
    match GenerateGoSchema header.Value.Schema [] with
    | .error err => .error ("error generating response header definition: " ++ err)
    | .ok contentSchema =>
      let hd : ResponseHeaderDefinition :=
        { Name := headerName, GoName := SchemaNameToTypeName headerName,
          Schema := contentSchema }
      match respHeaderLoop headers rest with
      | .error e => .error e
      | .ok hds => .ok (hd :: hds)

/-- The per-status-code body of `GenerateResponseDefinitions`: builds the
response definition and, when the response aliases a pre-defined type whose
name is not already taken (`refSet`), records the alias and consumes the
name; a taken name leaves the definition's `Ref` empty (a fresh type is
synthesized downstream) rather than erroring. -/
def processResponse (operationID statusCode : String) (responseOrRef : ResponseRef)
    (refSet : List String) : Except String (ResponseDefinition × List String) :=
  let response := responseOrRef.Value
  match respContentLoop operationID statusCode response.Content
      (SortedContentKeys response.Content) with
  | .error e => .error e
  | .ok contents =>
    match respHeaderLoop response.Headers (SortedHeadersKeys response.Headers) with
    | .error e => .error e
    | .ok headers =>
      let rd : ResponseDefinition :=
        { StatusCode := statusCode, Contents := contents, Headers := headers }
      let rd := match response.Description with
        | some d => { rd with Description := d }
        | none => rd
      if IsGoTypeReference responseOrRef.Ref then
        match RefPathToGoType responseOrRef.Ref with
        | .error err => .error ("error turning reference (" ++ responseOrRef.Ref
            ++ ") into a Go type: " ++ err)
        | .ok refType =>
          if refType ∈ refSet then .ok (rd, refSet)
          else .ok ({ rd with Ref := refType }, refType :: refSet)
      else .ok (rd, refSet)

/-- The status-code loop of `GenerateResponseDefinitions`, threading the set
of consumed alias names; nil map entries are skipped. -/
def respLoop (operationID : String) (responses : Responses) :
    List String → List String → Except String (List ResponseDefinition)
  | [], _ => .ok []
  | statusCode :: rest, refSet =>
    match lookupD responses statusCode none with
    | none => respLoop operationID responses rest refSet
    | some responseOrRef =>
      match processResponse operationID statusCode responseOrRef refSet with
      | .error e => .error e
      | .ok (rd, refSet2) =>
        match respLoop operationID responses rest refSet2 with
        | .error e => .error e
        | .ok rds => .ok (rd :: rds)

/-- `GenerateResponseDefinitions` of operations.go. -/
def GenerateResponseDefinitions (operationID : String) (responses : Responses) :
    Except String (List ResponseDefinition) :=
  respLoop operationID responses (SortedResponsesKeys responses) []

/-! ## Claim C3 -/

/-- What one step of the status loop guarantees about the alias set: it only
grows, a non-empty emitted alias is fresh and becomes consumed, and nothing
else is added. -/
theorem processResponse_refSet (operationID statusCode : String) (rr : ResponseRef)
    (refSet : List String) (rd : ResponseDefinition) (refSet2 : List String)
    (h : processResponse operationID statusCode rr refSet = .ok (rd, refSet2)) :
    (∀ r ∈ refSet, r ∈ refSet2) ∧
    (rd.Ref = "" ∨ (rd.Ref ∉ refSet ∧ rd.Ref ∈ refSet2)) ∧
    (∀ r ∈ refSet2, r ∈ refSet ∨ r = rd.Ref) := by
  simp only [processResponse] at h
  rcases hc : respContentLoop operationID statusCode rr.Value.Content
      (SortedContentKeys rr.Value.Content) with e | contents
  · simp [hc] at h
  · simp only [hc] at h
    rcases hh : respHeaderLoop rr.Value.Headers (SortedHeadersKeys rr.Value.Headers)
        with e | headers
    · simp [hh] at h
    · simp only [hh] at h
      rcases hd : rr.Value.Description with _ | d <;> simp only [hd] at h <;>
      · by_cases hgr : IsGoTypeReference rr.Ref = true
        · rw [if_pos hgr] at h
          rcases hrp : RefPathToGoType rr.Ref with e | refType
          · simp [hrp] at h
          · simp only [hrp] at h
            by_cases hmem : refType ∈ refSet
            · rw [if_pos hmem] at h
              simp only [Except.ok.injEq, Prod.mk.injEq] at h
              obtain ⟨rfl, rfl⟩ := h
              exact ⟨fun r hr => hr, Or.inl rfl, fun r hr => Or.inl hr⟩
            · rw [if_neg hmem] at h
              simp only [Except.ok.injEq, Prod.mk.injEq] at h
              obtain ⟨rfl, rfl⟩ := h
              refine ⟨fun r hr => List.mem_cons_of_mem _ hr,
                Or.inr ⟨hmem, List.mem_cons_self _ _⟩, fun r hr => ?_⟩
              rcases List.mem_cons.mp hr with rfl | hr
              · exact Or.inr rfl
              · exact Or.inl hr
        · rw [if_neg hgr] at h
          simp only [Except.ok.injEq, Prod.mk.injEq] at h
          obtain ⟨rfl, rfl⟩ := h
          exact ⟨fun r hr => hr, Or.inl rfl, fun r hr => Or.inl hr⟩

/-- Along the status loop, a consumed alias name is never emitted again, and
any non-empty alias name is carried by at most one emitted response
definition. -/
theorem respLoop_ref_unique (operationID : String) (responses : Responses)
    (ks : List String) :
    ∀ (refSet : List String) (rds : List ResponseDefinition),
      respLoop operationID responses ks refSet = .ok rds →
      ∀ r : String, r ≠ "" →
        (r ∈ refSet → rds.countP (fun rd => decide (rd.Ref = r)) = 0) ∧
        rds.countP (fun rd => decide (rd.Ref = r)) ≤ 1 := by
  induction ks with
  | nil =>
    intro refSet rds h r hr
    simp only [respLoop, Except.ok.injEq] at h
    subst h
    simp
  | cons statusCode rest ih =>
    intro refSet rds h r hr
    simp only [respLoop] at h
    rcases hl : lookupD responses statusCode none with _ | rr <;> simp only [hl] at h
    · exact ih refSet rds h r hr
    · rcases hp : processResponse operationID statusCode rr refSet with e | ⟨rd, refSet2⟩
      · simp [hp] at h
      · simp only [hp] at h
        rcases hrest : respLoop operationID responses rest refSet2 with e | rds2
        · simp [hrest] at h
        · simp only [hrest, Except.ok.injEq] at h
          subst h
          obtain ⟨hgrow, hfresh, _⟩ :=
            processResponse_refSet operationID statusCode rr refSet rd refSet2 hp
          obtain ⟨htail0, htail1⟩ := ih refSet2 rds2 hrest r hr
          by_cases heq : rd.Ref = r
          · subst heq
            rcases hfresh with hempty | ⟨hnotin, hin2⟩
            · exact absurd hempty hr
            · constructor
              · intro hrin
                exact absurd hrin hnotin
              · have h0 := htail0 hin2
                simp [List.countP_cons, h0]
          · constructor
            · intro hrin
              have h0 := htail0 (hgrow r hrin)
              simp [List.countP_cons, h0, heq]
            · have : rds2.countP (fun rd => decide (rd.Ref = r)) ≤ 1 := htail1
              simp only [List.countP_cons, heq]
              simpa [heq] using this

/-- The responses map of the claim: `200` and `default` both reference the
same predefined response type. -/
def c3Responses : Responses :=
  [("default", some { Ref := "#/components/responses/TResp" }),
   ("200", some { Ref := "#/components/responses/TResp" })]

/-- The response definition generated for status `200`: the first in sorted
status-code order, so it carries the alias. -/
def c3Def200 : ResponseDefinition := { StatusCode := "200", Ref := "TResp" }

/-- The response definition generated for `default`: the alias name is
already consumed, so its `Ref` stays empty (a fresh type downstream). -/
def c3DefDefault : ResponseDefinition := { StatusCode := "default" }

/-- C3: over any responses map, at most one generated response definition
carries a given alias name, and duplicates degrade silently instead of
erroring: in the concrete two-status example both `200` and `default`
reference the same predefined type, the compilation succeeds, `200` (first
in sorted status-code order) carries the alias and `default` gets an empty
`Ref`. -/
theorem C3_response_alias_unique :
    (∀ (operationID : String) (responses : Responses) (rds : List ResponseDefinition),
        GenerateResponseDefinitions operationID responses = .ok rds →
        ∀ r : String, r ≠ "" → rds.countP (fun rd => decide (rd.Ref = r)) ≤ 1) ∧
    GenerateResponseDefinitions "Op" c3Responses = .ok [c3Def200, c3DefDefault] ∧
    c3Def200.Ref = "TResp" ∧ c3DefDefault.Ref = "" := by
  refine ⟨?_, by rfl, rfl, rfl⟩
  intro operationID responses rds h r hr
  exact (respLoop_ref_unique operationID responses (SortedResponsesKeys responses)
    [] rds h r hr).2



/-! ## Security requirements, operations and the document (operations.go) -/

/-- `openapi3.SecurityRequirement`: an unordered map of provider name to
scope list. -/
abbrev SecurityRequirement := GoMap (List String)

/-- `SecurityDefinition` of operations.go. -/
structure SecurityDefinition where
  ProviderName : String := ""
  Scopes : List String := []
  deriving DecidableEq, Repr, Inhabited

/-- `SortedSecurityRequirementKeys` (utils.go, modelled by `sortedKeys`). -/
abbrev SortedSecurityRequirementKeys (m : SecurityRequirement) : List String := sortedKeys m

/-- `DescribeSecurityDefinition` of operations.go: one definition per
provider of each requirement, providers in sorted order. -/
def DescribeSecurityDefinition (securityRequirements : List SecurityRequirement) :
    List SecurityDefinition :=
  (securityRequirements.map fun sr =>
    (SortedSecurityRequirementKeys sr).map fun k =>
      ({ ProviderName := k, Scopes := lookupD sr k [] } : SecurityDefinition)).flatten

/-- `openapi3.Operation`: the fields operations.go reads. -/
structure Operation where
  OperationID : String := ""
  Summary : String := ""
  Description : String := ""
  Parameters : List ParameterRef := []
  RequestBody : Option RequestBodyRef := none
  Responses : Responses := []
  Security : Option (List SecurityRequirement) := none
  Servers : Option (List String) := none
  deriving DecidableEq, Repr, Inhabited

/-- `openapi3.PathItem`: shared parameters, servers, and the map
`pathItem.Operations()` builds from the non-nil per-method fields. -/
structure PathItem where
  Parameters : List ParameterRef := []
  Servers : Option (List String) := none
  Operations : GoMap Operation := []
  deriving DecidableEq, Repr, Inhabited

/-- `openapi3.T`: the parsed document (the fields operations.go reads). -/
structure T where
  Paths : GoMap PathItem := []
  Security : List SecurityRequirement := []
  deriving DecidableEq, Repr, Inhabited

/-- `SortedPathsKeys` (utils.go, modelled by `sortedKeys`). -/
abbrev SortedPathsKeys (m : GoMap PathItem) : List String := sortedKeys m

/-- `SortedOperationsKeys` (utils.go, modelled by `sortedKeys`). -/
abbrev SortedOperationsKeys (m : GoMap Operation) : List String := sortedKeys m

/-! ## DescribeParameters and parameter bookkeeping (operations.go) -/

/-- The x-go-name extension key. -/
def extGoName : String := "x-go-name"

/-- `ParameterDefinition.GoName`: the declared name, overridden by the
x-go-name extension when present (the unstaged `extParseGoFieldName` is
modelled as returning the raw extension value), normalized to a type
name. -/
def ParameterDefinition.GoName (pd : ParameterDefinition) : String :=
  let goName := match lookupGo pd.Spec.Extensions extGoName with
    | some v => v
    | none => pd.ParamName
  SchemaNameToTypeName goName

/-- The reference step of `DescribeParameters` (lines 181-188 of
operations.go): a parameter defined by a `$ref` to a predefined type uses
the reference name as its Go type. -/
def resolveParamRef (paramOrRef : ParameterRef) (pd : ParameterDefinition) :
    Except String ParameterDefinition :=
  if IsGoTypeReference paramOrRef.Ref then
    match RefPathToGoType paramOrRef.Ref with
    | .error err => .error ("error dereferencing (" ++ paramOrRef.Ref
        ++ ") for param (" ++ paramOrRef.Value.Name ++ "): " ++ err)
    | .ok goType => .ok { pd with Schema := { pd.Schema with GoType := goType } }
  else .ok pd

/-- `DescribeParameters` of operations.go: the flat list of parameter
descriptors for a declared (ordered) parameter array. -/
def DescribeParameters (params : List ParameterRef) (path : List String) :
    Except String (List ParameterDefinition) :=
  match params with
  | [] => .ok []
  | paramOrRef :: rest =>
    let param := paramOrRef.Value
    match paramToGoType param (path ++ [param.Name]) with
    | .error err => .error ("error generating type for param (" ++ param.Name ++ "): " ++ err)
    | .ok goType =>
      let pd : ParameterDefinition :=
        { ParamName := param.Name, In := param.In, Required := param.Required,
          Spec := param, Schema := goType }
      match resolveParamRef paramOrRef pd with
      | .error e => .error e
      | .ok pd =>
        match DescribeParameters rest path with
        | .error e => .error e
        | .ok pds => .ok (pd :: pds)

/-- `FilterParameterDefinitionByType` of operations.go. -/
def FilterParameterDefinitionByType (params : List ParameterDefinition)
    (inLoc : String) : List ParameterDefinition :=
  params.filter fun p => p.In = inLoc

/-- The parameter names of a path template, in order of appearance. -/
def pathTemplateParamNames (path : String) : List String :=
  (goSplit path '/').filterMap fun part =>
    if isPathParam part then some (String.mk ((part.data.drop 1).dropLast)) else none

/-- The reordering loop of the modelled `SortParamsByPath`. -/
def sortParamsLoop (params : List ParameterDefinition) :
    List String → Except String (List ParameterDefinition)
  | [] => .ok []
  | n :: rest =>
    match FindByName params n with
    | none => .error ("path parameter " ++ n ++ " is not declared as a path parameter")
    | some pd =>
      match sortParamsLoop params rest with
      | .error e => .error e
      | .ok pds => .ok (pd :: pds)

/-- Modelled from the spec §4.4: `SortParamsByPath` of utils.go (not part of
the staged source): "Path parameters are additionally reordered to match
their left-to-right order of appearance in the path template ...; a
mismatch between the set of path-template parameter names and the set of
declared path parameters is a hard error." -/
def SortParamsByPath (path : String) (params : List ParameterDefinition) :
    Except String (List ParameterDefinition) :=
  let names := pathTemplateParamNames path
  if names.length ≠ params.length then
    .error ("path parameter count mismatch for path " ++ path)
  else sortParamsLoop params names

/-! ## OperationDefinition and its assembly (operations.go) -/

/-- `OperationDefinition` of operations.go. -/
structure OperationDefinition where
  OperationId : String := ""
  PathParams : List ParameterDefinition := []
  HeaderParams : List ParameterDefinition := []
  QueryParams : List ParameterDefinition := []
  CookieParams : List ParameterDefinition := []
  TypeDefinitions : List TypeDefinition := []
  SecurityDefinitions : List SecurityDefinition := []
  BodyRequired : Bool := false
  Bodies : List RequestBodyDefinition := []
  Responses : List ResponseDefinition := []
  Summary : String := ""
  Method : String := ""
  Path : String := ""
  Spec : Operation := {}
  deriving DecidableEq, Repr, Inhabited

/-- `OperationDefinition.Params`: all parameters except path parameters. -/
def OperationDefinition.Params (o : OperationDefinition) : List ParameterDefinition :=
  o.QueryParams ++ o.HeaderParams ++ o.CookieParams

/-- `OperationDefinition.AllParams`. -/
def OperationDefinition.AllParams (o : OperationDefinition) : List ParameterDefinition :=
  o.QueryParams ++ o.HeaderParams ++ o.CookieParams ++ o.PathParams

/-- The loop of `GenerateParamsTypes`: for each object parameter, the
auxiliary type definitions and the property added to the params object.
`param.Style()` is called by the source (line 936, result unused, then
line 950); its panic aborts the generation, embedded as error
propagation. -/
def paramsTypesLoop (typeName : String) :
    List ParameterDefinition → Except String (List TypeDefinition × List Property)
  | [] => .ok ([], [])
  | param :: rest =>
    match param.Style with
    | .error e => .error e
    | .ok st =>
      let pSchema := param.Schema
      let (pSchema, tds0) :=
        if pSchema.HasAdditionalProperties then
          let propRefName := typeName ++ "_" ++ param.GoName
          (({ pSchema with RefType := propRefName } : Schema),
           [({ TypeName := propRefName, Schema := param.Schema } : TypeDefinition)])
        else (pSchema, [])
      -- the property records the (possibly re-referenced) schema in the
      -- source; the nested schema is omitted from the modelled Property
      let _ := pSchema
      let prop : Property :=
        { Description := param.Spec.Description,
          JsonFieldName := param.ParamName,
          Required := param.Required,
          NeedsFormTag := st = "form" }
      match paramsTypesLoop typeName rest with
      | .error e => .error e
      | .ok (tds, props) => .ok (tds0 ++ tds, prop :: props)

/-- The body of `GenerateParamsTypes` once the inputs it reads are in hand:
the params object type for an operation, preceded by the auxiliary types
for free-form parameters. -/
def generateParamsTypesCore (opId : String) (objectParams : List ParameterDefinition)
    (specDescription : String) : Except String (List TypeDefinition) :=
  let typeName := opId ++ "Params"
  match paramsTypesLoop typeName objectParams with
  | .error e => .error e
  | .ok (typeDefs, props) =>
    let s0 : Schema := { Properties := props, Description := specDescription }
    let s : Schema := { s0 with GoType := GenStructFromSchema s0 }
    let td : TypeDefinition := { TypeName := typeName, Schema := s }
    .ok (typeDefs ++ [td])

/-- `GenerateParamsTypes` of operations.go. -/
def GenerateParamsTypes (op : OperationDefinition) : Except String (List TypeDefinition) :=
  generateParamsTypesCore op.OperationId
    (op.QueryParams ++ op.HeaderParams ++ op.CookieParams) op.Spec.Description

/-- The body of `GenerateTypeDefsForOperation` once the operation fields it
reads are in hand (`op.Params` is query++header++cookie and `op.AllParams`
additionally appends the path parameters). -/
def generateTypeDefsCore (opId : String)
    (queryParams headerParams cookieParams pathParams : List ParameterDefinition)
    (bodies : List RequestBodyDefinition) (specDescription : String) :
    Except String (List TypeDefinition) :=
  match (if (queryParams ++ headerParams ++ cookieParams).length ≠ 0 then
          generateParamsTypesCore opId (queryParams ++ headerParams ++ cookieParams)
            specDescription
         else Except.ok [] : Except String (List TypeDefinition)) with
  | .error e => .error e
  | .ok typeDefs =>
    let typeDefs := typeDefs ++
      ((queryParams ++ headerParams ++ cookieParams ++ pathParams).map
        fun p => p.Schema.GetAdditionalTypeDefs).flatten
    let typeDefs := typeDefs ++
      (bodies.map fun b => b.Schema.GetAdditionalTypeDefs).flatten
    .ok typeDefs

/-- `GenerateTypeDefsForOperation` of operations.go. -/
def GenerateTypeDefsForOperation (op : OperationDefinition) :
    Except String (List TypeDefinition) :=
  generateTypeDefsCore op.OperationId op.QueryParams op.HeaderParams op.CookieParams
    op.PathParams op.Bodies op.Spec.Description

/-- Lines 507-509 of operations.go: a path item's servers are copied onto
the operation when present. -/
def applyPathItemServers (pathItem : PathItem) (op : Operation) : Operation :=
  match pathItem.Servers with
  | some servers => { op with Servers := some servers }
  | none => op

/-- Lines 510-519 of operations.go: a missing operation id is synthesized
from the method and path; a declared one is camel-cased. -/
def resolveOperationId (opName requestPath : String) (pathOpCount : Nat)
    (op : Operation) : Except String Operation :=
  if op.OperationID = "" then
    match generateDefaultOperationID opName requestPath pathOpCount with
    | .ok oid => .ok { op with OperationID := oid }
    | .error err => .error ("error generating default OperationID for "
        ++ opName ++ "/" ++ requestPath ++ ": " ++ err)
  else .ok { op with OperationID := ToCamelCase op.OperationID }

/-- The per-method body of `OperationDefinitions` (lines 505-589 of
operations.go): assembles one `OperationDefinition`. -/
def processOperation (swagger : T) (requestPath : String) (pathItem : PathItem)
    (globalParams : List ParameterDefinition) (pathOps : GoMap Operation)
    (opName : String) : Except String OperationDefinition :=
  let op := lookupD pathOps opName {}
  let op := applyPathItemServers pathItem op
  match resolveOperationId opName requestPath pathOps.length op with
  | .error e => .error e
  | .ok op =>
    let op := { op with OperationID := typeNamePrefix op.OperationID ++ op.OperationID }
    match DescribeParameters op.Parameters [op.OperationID ++ "Params"] with
    | .error err => .error ("error describing global parameters for " ++ opName
        ++ "/" ++ requestPath ++ ": " ++ err)
    | .ok localParams =>
      -- the union of the path-shared and the operation-local parameters
      let allParams := globalParams ++ localParams
      match SortParamsByPath requestPath
          (FilterParameterDefinitionByType allParams "path") with
      | .error e => .error e
      | .ok pathParams =>
        match GenerateBodyDefinitions op.OperationID op.RequestBody with
        | .error err => .error ("error generating body definitions: " ++ err)
        | .ok (bodyDefinitions, typeDefinitions) =>
          match GenerateResponseDefinitions op.OperationID op.Responses with
          | .error err => .error ("error generating response definitions: " ++ err)
          | .ok responseDefinitions =>
            let opDef : OperationDefinition :=
              { PathParams := pathParams,
                HeaderParams := FilterParameterDefinitionByType allParams "header",
                QueryParams := FilterParameterDefinitionByType allParams "query",
                CookieParams := FilterParameterDefinitionByType allParams "cookie",
                OperationId := ToCamelCase op.OperationID,
                Summary := op.Summary,
                Method := opName,
                Path := requestPath,
                Spec := op,
                Bodies := bodyDefinitions,
                Responses := responseDefinitions,
                TypeDefinitions := typeDefinitions }
            -- operation-level security, when declared, fully overrides the
            -- document-level default
            let opDef :=
              match op.Security with
              | some sec =>
                { opDef with SecurityDefinitions := DescribeSecurityDefinition sec }
              | none =>
                { opDef with SecurityDefinitions :=
                    DescribeSecurityDefinition swagger.Security }
            let opDef :=
              match op.RequestBody with
              | some rb => { opDef with BodyRequired := rb.Value.Required }
              | none => opDef
            match GenerateTypeDefsForOperation opDef with
            | .error e => .error e
            | .ok tds2 =>
              .ok { opDef with TypeDefinitions := opDef.TypeDefinitions ++ tds2 }

/-- The method loop of `OperationDefinitions`, over the sorted method
names of one path. -/
def opsLoop (swagger : T) (requestPath : String) (pathItem : PathItem)
    (globalParams : List ParameterDefinition) (pathOps : GoMap Operation) :
    List String → Except String (List OperationDefinition)
  | [] => .ok []
  | opName :: rest =>
    match processOperation swagger requestPath pathItem globalParams pathOps opName with
    | .error e => .error e
    | .ok od =>
      match opsLoop swagger requestPath pathItem globalParams pathOps rest with
      | .error e => .error e
      | .ok ods => .ok (od :: ods)

/-- The per-path body of `OperationDefinitions` (lines 493-504): the shared
parameters are described once per path. -/
def processPath (swagger : T) (requestPath : String) :
    Except String (List OperationDefinition) :=
  let pathItem := lookupD swagger.Paths requestPath {}
  match DescribeParameters pathItem.Parameters [] with
  | .error err => .error ("error describing global parameters for "
      ++ requestPath ++ ": " ++ err)
  | .ok globalParams =>
    opsLoop swagger requestPath pathItem globalParams pathItem.Operations
      (SortedOperationsKeys pathItem.Operations)

/-- The path loop of `OperationDefinitions`, over the sorted path keys. -/
def pathsLoop (swagger : T) : List String → Except String (List OperationDefinition)
  | [] => .ok []
  | requestPath :: rest =>
    match processPath swagger requestPath with
    | .error e => .error e
    | .ok ods =>
      match pathsLoop swagger rest with
      | .error e => .error e
      | .ok rest2 => .ok (ods ++ rest2)

/-- `OperationDefinitions` of operations.go: all operations of a document,
paths in sorted order, methods in sorted order within a path. -/
def OperationDefinitions (swagger : T) : Except String (List OperationDefinition) :=
  pathsLoop swagger (SortedPathsKeys swagger.Paths)



/-! ## Claim C5 -/

/-- `FindByName` returns the first positional match, so a hit in the left
list of a concatenation wins. -/
theorem findByName_append_some {g : List ParameterDefinition} {n : String}
    {pd : ParameterDefinition} (h : FindByName g n = some pd)
    (l : List ParameterDefinition) : FindByName (g ++ l) n = some pd := by
  induction g with
  | nil => exact absurd h (by simp [FindByName])
  | cons a g ih =>
    rw [List.cons_append]
    simp only [FindByName] at h ⊢
    split_ifs at h ⊢ with ha
    · exact h
    · exact ih h

/-- `FindByName` falls through to the right list only when the left list
has no parameter of that name. -/
theorem findByName_append_none {g : List ParameterDefinition} {n : String}
    (h : FindByName g n = none) (l : List ParameterDefinition) :
    FindByName (g ++ l) n = FindByName l n := by
  induction g with
  | nil => rfl
  | cons a g ih =>
    rw [List.cons_append]
    simp only [FindByName] at h ⊢
    split_ifs at h ⊢ with ha
    exact ih h

/-- The path-level (shared) query parameter of the claim's document. -/
def c5SharedParam : Parameter :=
  { Name := "p", In := "query", Description := "shared" }

/-- The operation-level (local) query parameter of the same name. -/
def c5LocalParam : Parameter :=
  { Name := "p", In := "query", Description := "local" }

/-- A document with one path declaring a shared parameter `p` and one GET
operation declaring its own parameter `p`. -/
def c5Doc : T :=
  { Paths := [("/things",
      { Parameters := [{ Value := c5SharedParam }],
        Operations := [("GET",
          { OperationID := "listThings",
            Parameters := [{ Value := c5LocalParam }] })] })] }

/-- The descriptor built for the shared parameter. -/
def c5SharedPd : ParameterDefinition :=
  { ParamName := "p", In := "query", Spec := c5SharedParam,
    Schema := { GoType := "interface" } }

/-- The descriptor built for the local parameter. -/
def c5LocalPd : ParameterDefinition :=
  { ParamName := "p", In := "query", Spec := c5LocalParam,
    Schema := { GoType := "interface" } }

/-- The params-object type synthesized for the operation of `c5Doc`. -/
def c5ParamsTd : TypeDefinition :=
  { TypeName := "ListThingsParams",
    Schema := { GoType := "struct p:form p:form",
                Properties := [
                  { Description := "shared", JsonFieldName := "p", NeedsFormTag := true },
                  { Description := "local", JsonFieldName := "p", NeedsFormTag := true }] } }

/-- The operation definition compiled from `c5Doc`. -/
def c5OpDef : OperationDefinition :=
  { OperationId := "ListThings",
    QueryParams := [c5SharedPd, c5LocalPd],
    TypeDefinitions := [c5ParamsTd],
    Method := "GET",
    Path := "/things",
    Spec := { OperationID := "ListThings",
              Parameters := [{ Value := c5LocalParam }] } }

/-- C5: the merged parameter list of an operation is the path-level (shared)
parameters followed by the operation-level (local) ones, and `FindByName`
returns the first positional match, so a shared parameter shadows a local
parameter of the same name: in general a hit among the shared parameters
wins over anything appended after them, and on the concrete document the
compiled operation's query parameters are `[shared, local]` with lookup by
name returning the shared one. -/
theorem C5_shared_params_precedence :
    (∀ (g l : List ParameterDefinition) (n : String) (pd : ParameterDefinition),
        FindByName g n = some pd → FindByName (g ++ l) n = some pd) ∧
    (∀ (g l : List ParameterDefinition) (n : String),
        FindByName g n = none → FindByName (g ++ l) n = FindByName l n) ∧
    OperationDefinitions c5Doc = .ok [c5OpDef] ∧
    c5OpDef.QueryParams = [c5SharedPd, c5LocalPd] ∧
    c5SharedPd.ParamName = "p" ∧ c5LocalPd.ParamName = "p" ∧
    c5SharedPd.Spec = c5SharedParam ∧ c5LocalPd.Spec = c5LocalParam ∧
    FindByName c5OpDef.QueryParams "p" = some c5SharedPd ∧
    c5SharedPd ≠ c5LocalPd := by
  refine ⟨fun g l n pd h => findByName_append_some h l,
          fun g l n h => findByName_append_none h l,
          by rfl, rfl, rfl, rfl, rfl, rfl, by rfl, by decide⟩



/-! ## Claim C9 -/

theorem processOperation_security
    {swagger : T} {requestPath : String} {pathItem : PathItem}
    {globalParams : List ParameterDefinition} {pathOps : GoMap Operation}
    {opName : String} {od : OperationDefinition}
    (h : processOperation swagger requestPath pathItem globalParams pathOps opName = .ok od) :
    (∀ sec, od.Spec.Security = some sec →
        od.SecurityDefinitions = DescribeSecurityDefinition sec) ∧
    (od.Spec.Security = none →
        od.SecurityDefinitions = DescribeSecurityDefinition swagger.Security) := by
  simp only [processOperation] at h
  split at h
  · simp at h
  · rename_i x1 op1 hop1
    split at h
    · simp at h
    · split at h
      · simp at h
      · split at h
        · simp at h
        · split at h
          · simp at h
          · rcases hsec : op1.Security with _ | sec <;> simp only [hsec] at h
            · rcases hrb : op1.RequestBody with _ | rb <;> simp only [hrb] at h <;>
              · split at h
                · simp at h
                · simp only [Except.ok.injEq] at h
                  subst h
                  refine ⟨fun sec2 hs2 => ?_, fun _ => rfl⟩
                  exact Option.noConfusion
                    (show (none : Option (List SecurityRequirement)) = some sec2 from hs2)
            · rcases hrb : op1.RequestBody with _ | rb <;> simp only [hrb] at h <;>
              · split at h
                · simp at h
                · simp only [Except.ok.injEq] at h
                  subst h
                  refine ⟨fun sec2 hs2 => ?_, fun hn => ?_⟩
                  · cases Option.some.inj
                      (show (some sec : Option (List SecurityRequirement)) = some sec2 from hs2)
                    rfl
                  · exact Option.noConfusion
                      (show (some sec : Option (List SecurityRequirement)) = none from hn)



/-- Every operation definition emitted by the method loop comes from
`processOperation` at some method name. -/
theorem opsLoop_mem {swagger : T} {requestPath : String} {pathItem : PathItem}
    {globalParams : List ParameterDefinition} {pathOps : GoMap Operation}
    (ks : List String) :
    ∀ (ods : List OperationDefinition),
      opsLoop swagger requestPath pathItem globalParams pathOps ks = .ok ods →
      ∀ od ∈ ods, ∃ opName,
        processOperation swagger requestPath pathItem globalParams pathOps opName = .ok od := by
  induction ks with
  | nil =>
    intro ods h od hod
    simp only [opsLoop, Except.ok.injEq] at h
    subst h
    cases hod
  | cons k rest ih =>
    intro ods h od hod
    simp only [opsLoop] at h
    rcases hp : processOperation swagger requestPath pathItem globalParams pathOps k
      with e | od1
    · simp [hp] at h
    · simp only [hp] at h
      rcases hr : opsLoop swagger requestPath pathItem globalParams pathOps rest
        with e | ods1
      · simp [hr] at h
      · simp only [hr, Except.ok.injEq] at h
        subst h
        rcases List.mem_cons.mp hod with rfl | hm
        · exact ⟨k, hp⟩
        · exact ih ods1 hr od hm

/-- Every operation definition emitted for one path comes from
`processOperation`. -/
theorem processPath_mem {swagger : T} {requestPath : String}
    {ods : List OperationDefinition}
    (hp : processPath swagger requestPath = .ok ods) :
    ∀ od ∈ ods, ∃ pathItem globalParams pathOps opName,
      processOperation swagger requestPath pathItem globalParams pathOps opName = .ok od := by
  intro od hm
  simp only [processPath] at hp
  rcases hd : DescribeParameters (lookupD swagger.Paths requestPath {}).Parameters []
    with e | gp
  · simp [hd] at hp
  · simp only [hd] at hp
    obtain ⟨opName, hp2⟩ := opsLoop_mem _ ods hp od hm
    exact ⟨_, _, _, opName, hp2⟩

/-- Every operation definition of the compiled document comes from
`processOperation`. -/
theorem pathsLoop_mem {swagger : T} (ks : List String) :
    ∀ (ods : List OperationDefinition), pathsLoop swagger ks = .ok ods →
      ∀ od ∈ ods, ∃ requestPath pathItem globalParams pathOps opName,
        processOperation swagger requestPath pathItem globalParams pathOps opName = .ok od := by
  induction ks with
  | nil =>
    intro ods h od hod
    simp only [pathsLoop, Except.ok.injEq] at h
    subst h
    cases hod
  | cons rp rest ih =>
    intro ods h od hod
    simp only [pathsLoop] at h
    rcases hp : processPath swagger rp with e | ods1
    · simp [hp] at h
    · simp only [hp] at h
      rcases hr : pathsLoop swagger rest with e | ods2
      · simp [hr] at h
      · simp only [hr, Except.ok.injEq] at h
        subst h
        rcases List.mem_append.mp hod with hm | hm
        · obtain ⟨pi, gp, po, opName, hp2⟩ := processPath_mem hp od hm
          exact ⟨rp, pi, gp, po, opName, hp2⟩
        · exact ih ods2 hr od hm

/-- C9: an operation that declares a security field (even an empty list)
gets its `SecurityDefinitions` built solely from that operation-level
security; an operation whose security field is absent falls back to the
document-level default security requirements. -/
theorem C9_security_override (swagger : T) (ops : List OperationDefinition)
    (h : OperationDefinitions swagger = .ok ops) :
    ∀ od ∈ ops,
      (∀ sec, od.Spec.Security = some sec →
        od.SecurityDefinitions = DescribeSecurityDefinition sec) ∧
      (od.Spec.Security = none →
        od.SecurityDefinitions = DescribeSecurityDefinition swagger.Security) := by
  intro od hod
  obtain ⟨rp, pi, gp, po, opName, hp⟩ :=
    pathsLoop_mem (SortedPathsKeys swagger.Paths) ops h od hod
  exact processOperation_security hp

/-- C9 witness: the concrete one-operation document (whose operation has no
security field) takes the document-level security. -/
theorem C9_security_override_witness :
    c5OpDef.SecurityDefinitions = DescribeSecurityDefinition c5Doc.Security :=
  (C9_security_override c5Doc [c5OpDef] (by rfl) c5OpDef (List.mem_singleton.mpr rfl)).2
    (by rfl)



/-! ## Claim C7: determinism over map iteration order

Two documents that are the same map value — every unordered collection given
in a possibly different iteration order — compile to the same operation
list.  `stripSpec` erases the carried raw `Spec` pointer field (two
iteration orders of the same Go map are the same Go value; the association
lists embedding them differ only in list order, which a Go program cannot
observe on the `Spec` it stores). -/

/-- Pointwise relation on optional values. -/
def OptRel {α : Type} (R : α → α → Prop) : Option α → Option α → Prop
  | none, none => True
  | some a, some b => R a b
  | _, _ => False

/-- Two Go maps are the same map value up to `R`: the same multiset of keys,
and `R`-related values at every key. -/
def MapEquiv {α : Type} (R : α → α → Prop) (m1 m2 : GoMap α) : Prop :=
  (mapKeys m1).Perm (mapKeys m2) ∧
  ∀ k v1 v2, lookupGo m1 k = some v1 → lookupGo m2 k = some v2 → R v1 v2

theorem lookupGo_isSome_iff {α : Type} (m : GoMap α) (k : String) :
    (lookupGo m k).isSome = true ↔ k ∈ mapKeys m := by
  induction m with
  | nil => simp [lookupGo, mapKeys]
  | cons p rest ih =>
    rcases p with ⟨k1, v1⟩
    simp only [lookupGo, mapKeys, List.map_cons, List.mem_cons]
    by_cases hk : k1 = k
    · simp [hk]
    · rw [if_neg hk]
      rw [mapKeys] at ih
      rw [ih]
      constructor
      · exact fun hm => Or.inr hm
      · rintro (rfl | hm)
        · exact absurd rfl hk
        · exact hm

theorem mapEquiv_lookup {α : Type} {R : α → α → Prop} {m1 m2 : GoMap α}
    (h : MapEquiv R m1 m2) (k : String) :
    OptRel R (lookupGo m1 k) (lookupGo m2 k) := by
  rcases h with ⟨hperm, hval⟩
  rcases h1 : lookupGo m1 k with _ | v1 <;> rcases h2 : lookupGo m2 k with _ | v2
  · trivial
  · have hk2 : k ∈ mapKeys m2 := (lookupGo_isSome_iff m2 k).mp (by simp [h2])
    have hk1 : k ∈ mapKeys m1 := hperm.mem_iff.mpr hk2
    have hs := (lookupGo_isSome_iff m1 k).mpr hk1
    rw [h1] at hs
    exact Bool.noConfusion hs
  · have hk1 : k ∈ mapKeys m1 := (lookupGo_isSome_iff m1 k).mp (by simp [h1])
    have hk2 : k ∈ mapKeys m2 := hperm.mem_iff.mp hk1
    have hs := (lookupGo_isSome_iff m2 k).mpr hk2
    rw [h2] at hs
    exact Bool.noConfusion hs
  · exact hval k v1 v2 h1 h2

theorem mapEquiv_eq_lookup {α : Type} {m1 m2 : GoMap α} (h : MapEquiv Eq m1 m2)
    (k : String) : lookupGo m1 k = lookupGo m2 k := by
  have hlk := mapEquiv_lookup h k
  rcases h1 : lookupGo m1 k with _ | v1 <;> rcases h2 : lookupGo m2 k with _ | v2 <;>
    rw [h1, h2] at hlk <;>
    first
      | rfl
      | exact False.elim hlk
      | exact congrArg some hlk

theorem mapEquiv_eq_lookupD {α : Type} {m1 m2 : GoMap α} (h : MapEquiv Eq m1 m2)
    (k : String) (d : α) : lookupD m1 k d = lookupD m2 k d := by
  rw [lookupD, lookupD, mapEquiv_eq_lookup h k]

/-- Maps with the same key multiset have the same sorted key list. -/
theorem sortedKeys_eq {α β : Type} {m1 : GoMap α} {m2 : GoMap β}
    (hp : (mapKeys m1).Perm (mapKeys m2)) : sortedKeys m1 = sortedKeys m2 := by
  have h1 := List.sorted_insertionSort (fun a b => strLe a b = true) (mapKeys m1)
  have h2 := List.sorted_insertionSort (fun a b => strLe a b = true) (mapKeys m2)
  exact List.eq_of_perm_of_sorted
    ((List.perm_insertionSort _ _).trans (hp.trans (List.perm_insertionSort _ _).symm)) h1 h2

/-- Request body references that are the same value up to content-map
iteration order. -/
def BodyRefEquiv (b1 b2 : RequestBodyRef) : Prop :=
  b1.Ref = b2.Ref ∧ b1.Value.Required = b2.Value.Required ∧
  MapEquiv Eq b1.Value.Content b2.Value.Content

/-- Response references that are the same value up to content-map and
header-map iteration order. -/
def RespEquiv (r1 r2 : ResponseRef) : Prop :=
  r1.Ref = r2.Ref ∧ r1.Value.Description = r2.Value.Description ∧
  MapEquiv Eq r1.Value.Content r2.Value.Content ∧
  MapEquiv Eq r1.Value.Headers r2.Value.Headers

/-- Security requirement lists that are the same value up to requirement-map
iteration order (the list itself is ordered in the document). -/
def SecReqsEquiv (s1 s2 : List SecurityRequirement) : Prop :=
  List.Forall₂ (MapEquiv Eq) s1 s2

/-- Operations that are the same value up to iteration order of their
response map, body content maps and security requirement maps. -/
def OpEquiv (o1 o2 : Operation) : Prop :=
  o1.OperationID = o2.OperationID ∧ o1.Summary = o2.Summary ∧
  o1.Description = o2.Description ∧ o1.Parameters = o2.Parameters ∧
  OptRel BodyRefEquiv o1.RequestBody o2.RequestBody ∧
  MapEquiv (OptRel RespEquiv) o1.Responses o2.Responses ∧
  OptRel SecReqsEquiv o1.Security o2.Security ∧
  o1.Servers = o2.Servers

/-- Path items that are the same value up to iteration order of their
operations map and of the maps inside each operation. -/
def PathItemEquiv (p1 p2 : PathItem) : Prop :=
  p1.Parameters = p2.Parameters ∧ p1.Servers = p2.Servers ∧
  MapEquiv OpEquiv p1.Operations p2.Operations

/-- Documents that are the same value up to iteration order of every
unordered collection (paths, operations per path, content-type maps,
response maps, header maps, security requirement maps). -/
def DocEquiv (d1 d2 : T) : Prop :=
  MapEquiv PathItemEquiv d1.Paths d2.Paths ∧ SecReqsEquiv d1.Security d2.Security

/-- Erases the carried raw document operation (the `Spec` field). -/
def stripSpec (od : OperationDefinition) : OperationDefinition := { od with Spec := {} }

theorem MapEquiv_refl {α : Type} {R : α → α → Prop} (hR : ∀ v, R v v) (m : GoMap α) :
    MapEquiv R m m :=
  ⟨List.Perm.refl _, fun _ v1 v2 h1 h2 => by
    rw [h1] at h2
    cases Option.some.inj h2
    exact hR v1⟩

theorem OptRel_refl {α : Type} {R : α → α → Prop} (hR : ∀ v, R v v) :
    ∀ o : Option α, OptRel R o o
  | none => trivial
  | some a => hR a

theorem BodyRefEquiv_refl (b : RequestBodyRef) : BodyRefEquiv b b :=
  ⟨rfl, rfl, MapEquiv_refl (fun _ => rfl) _⟩

theorem RespEquiv_refl (r : ResponseRef) : RespEquiv r r :=
  ⟨rfl, rfl, MapEquiv_refl (fun _ => rfl) _, MapEquiv_refl (fun _ => rfl) _⟩

theorem SecReqsEquiv_refl (s : List SecurityRequirement) : SecReqsEquiv s s :=
  List.forall₂_same.mpr fun _ _ => MapEquiv_refl (fun _ => rfl) _

theorem OpEquiv_refl (o : Operation) : OpEquiv o o :=
  ⟨rfl, rfl, rfl, rfl, OptRel_refl BodyRefEquiv_refl _,
   MapEquiv_refl (OptRel_refl RespEquiv_refl) _, OptRel_refl SecReqsEquiv_refl _, rfl⟩

theorem PathItemEquiv_refl (p : PathItem) : PathItemEquiv p p :=
  ⟨rfl, rfl, MapEquiv_refl OpEquiv_refl _⟩

theorem DocEquiv_refl (d : T) : DocEquiv d d :=
  ⟨MapEquiv_refl PathItemEquiv_refl _, SecReqsEquiv_refl _⟩



/-! ### Congruence of the pipeline under map-value equivalence -/

theorem bodyLoop_congr (operationID : String) {body1 body2 : RequestBody}
    (hreq : body1.Required = body2.Required)
    (hc : MapEquiv Eq body1.Content body2.Content) :
    ∀ ks, bodyLoop operationID body1 ks = bodyLoop operationID body2 ks := by
  intro ks
  induction ks with
  | nil => rfl
  | cons k rest ih =>
    simp only [bodyLoop, mapEquiv_eq_lookupD hc k, hreq, ih]

theorem GenerateBodyDefinitions_congr (operationID : String)
    {b1 b2 : Option RequestBodyRef} (h : OptRel BodyRefEquiv b1 b2) :
    GenerateBodyDefinitions operationID b1 = GenerateBodyDefinitions operationID b2 := by
  rcases b1 with _ | br1 <;> rcases b2 with _ | br2
  · rfl
  · exact False.elim h
  · exact False.elim h
  · obtain ⟨href, hreq, hc⟩ := h
    simp only [GenerateBodyDefinitions, SortedContentKeys]
    rw [sortedKeys_eq hc.1, bodyLoop_congr operationID hreq hc]

theorem respContentLoop_congr (operationID statusCode : String)
    {c1 c2 : GoMap MediaType} (hc : MapEquiv Eq c1 c2) :
    ∀ ks, respContentLoop operationID statusCode c1 ks =
      respContentLoop operationID statusCode c2 ks := by
  intro ks
  induction ks with
  | nil => rfl
  | cons k rest ih =>
    simp only [respContentLoop, mapEquiv_eq_lookupD hc k, ih]

theorem respHeaderLoop_congr {h1 h2 : GoMap HeaderRef} (hc : MapEquiv Eq h1 h2) :
    ∀ ks, respHeaderLoop h1 ks = respHeaderLoop h2 ks := by
  intro ks
  induction ks with
  | nil => rfl
  | cons k rest ih =>
    simp only [respHeaderLoop, mapEquiv_eq_lookupD hc k, ih]

theorem processResponse_congr (operationID statusCode : String)
    {rr1 rr2 : ResponseRef} (h : RespEquiv rr1 rr2) (refSet : List String) :
    processResponse operationID statusCode rr1 refSet =
    processResponse operationID statusCode rr2 refSet := by
  obtain ⟨href, hdesc, hcont, hhead⟩ := h
  simp only [processResponse, SortedContentKeys, SortedHeadersKeys]
  rw [sortedKeys_eq hcont.1, respContentLoop_congr operationID statusCode hcont,
      sortedKeys_eq hhead.1, respHeaderLoop_congr hhead, hdesc, href]

theorem respLoop_congr (operationID : String) {rs1 rs2 : Responses}
    (h : MapEquiv (OptRel RespEquiv) rs1 rs2) :
    ∀ ks refSet, respLoop operationID rs1 ks refSet = respLoop operationID rs2 ks refSet := by
  intro ks
  induction ks with
  | nil => intro refSet; rfl
  | cons k rest ih =>
    intro refSet
    have hlk := mapEquiv_lookup h k
    rcases h1 : lookupGo rs1 k with _ | o1 <;> rcases h2 : lookupGo rs2 k with _ | o2 <;>
      rw [h1, h2] at hlk
    · simp only [respLoop, lookupD, h1, h2, Option.getD]
      exact ih refSet
    · exact False.elim hlk
    · exact False.elim hlk
    · rcases o1 with _ | rr1 <;> rcases o2 with _ | rr2
      · simp only [respLoop, lookupD, h1, h2, Option.getD]
        exact ih refSet
      · exact False.elim hlk
      · exact False.elim hlk
      · simp only [respLoop, lookupD, h1, h2, Option.getD]
        rw [processResponse_congr operationID k hlk refSet]
        rcases hr : processResponse operationID k rr2 refSet with e | pr
        · simp only [hr]
        · simp only [hr, ih pr.2]

theorem GenerateResponseDefinitions_congr (operationID : String) {rs1 rs2 : Responses}
    (h : MapEquiv (OptRel RespEquiv) rs1 rs2) :
    GenerateResponseDefinitions operationID rs1 =
    GenerateResponseDefinitions operationID rs2 := by
  simp only [GenerateResponseDefinitions, SortedResponsesKeys]
  rw [sortedKeys_eq h.1, respLoop_congr operationID h]

theorem DescribeSecurityDefinition_congr {s1 s2 : List SecurityRequirement}
    (h : SecReqsEquiv s1 s2) :
    DescribeSecurityDefinition s1 = DescribeSecurityDefinition s2 := by
  induction h with
  | nil => rfl
  | cons hpair htail ih =>
    simp only [DescribeSecurityDefinition, SortedSecurityRequirementKeys,
      List.map_cons, List.flatten_cons] at ih ⊢
    rw [sortedKeys_eq hpair.1,
        List.map_congr_left (fun k _ => by rw [mapEquiv_eq_lookupD hpair k]), ih]



/-- Relates two fallible results: equal errors, or related values. -/
def ExceptRel {α : Type} (R : α → α → Prop) : Except String α → Except String α → Prop
  | .error e1, .error e2 => e1 = e2
  | .ok a, .ok b => R a b
  | _, _ => False

theorem applyPathItemServers_equiv {p1 p2 : PathItem} (hs : p1.Servers = p2.Servers)
    {o1 o2 : Operation} (h : OpEquiv o1 o2) :
    OpEquiv (applyPathItemServers p1 o1) (applyPathItemServers p2 o2) := by
  obtain ⟨h1, h2, h3, h4, h5, h6, h7, h8⟩ := h
  simp only [applyPathItemServers, ← hs]
  rcases hps : p1.Servers with _ | servers <;> simp only [hps]
  · exact ⟨h1, h2, h3, h4, h5, h6, h7, h8⟩
  · exact ⟨h1, h2, h3, h4, h5, h6, h7, rfl⟩

theorem resolveOperationId_congr (opName requestPath : String) (n : Nat)
    {o1 o2 : Operation} (h : OpEquiv o1 o2) :
    ExceptRel OpEquiv (resolveOperationId opName requestPath n o1)
      (resolveOperationId opName requestPath n o2) := by
  obtain ⟨h1, h2, h3, h4, h5, h6, h7, h8⟩ := h
  simp only [resolveOperationId, h1]
  split_ifs with hid
  · rcases hg : generateDefaultOperationID opName requestPath n with e | oid <;>
      simp only [hg]
    · exact rfl
    · exact ⟨rfl, h2, h3, h4, h5, h6, h7, h8⟩
  · exact ⟨rfl, h2, h3, h4, h5, h6, h7, h8⟩

theorem processOperation_congr {sw1 sw2 : T}
    (hsw : SecReqsEquiv sw1.Security sw2.Security) (requestPath : String)
    {p1 p2 : PathItem} (hpiS : p1.Servers = p2.Servers)
    (globalParams : List ParameterDefinition)
    {po1 po2 : GoMap Operation} (hpo : MapEquiv OpEquiv po1 po2) (opName : String) :
    Except.map stripSpec (processOperation sw1 requestPath p1 globalParams po1 opName) =
    Except.map stripSpec (processOperation sw2 requestPath p2 globalParams po2 opName) := by
  have hlen : po1.length = po2.length := by
    have hlp := hpo.1.length_eq
    simpa [mapKeys] using hlp
  have hop : OpEquiv (lookupD po1 opName {}) (lookupD po2 opName {}) := by
    have hlk := mapEquiv_lookup hpo opName
    rcases h1 : lookupGo po1 opName with _ | v1 <;>
      rcases h2 : lookupGo po2 opName with _ | v2 <;> rw [h1, h2] at hlk <;>
      simp only [lookupD, h1, h2, Option.getD] <;>
      first
        | exact OpEquiv_refl _
        | exact False.elim hlk
        | exact hlk
  have hop0 := applyPathItemServers_equiv hpiS hop
  have hro := resolveOperationId_congr opName requestPath po2.length hop0
  simp only [processOperation]
  rw [hlen]
  rcases hr1 : resolveOperationId opName requestPath po2.length
      (applyPathItemServers p1 (lookupD po1 opName {})) with e1 | op1 <;>
    rcases hr2 : resolveOperationId opName requestPath po2.length
      (applyPathItemServers p2 (lookupD po2 opName {})) with e2 | op2 <;>
    rw [hr1, hr2] at hro <;> simp only [hr1, hr2]
  · have he : e1 = e2 := hro
    rw [he]
  · exact False.elim hro
  · exact False.elim hro
  · obtain ⟨hID, hSum, hDesc, hPar, hRB, hResp, hSec, hSrv⟩ := hro
    rw [hID, hPar, hSum, hDesc, hSrv]
    rcases hdp : DescribeParameters op2.Parameters
        [typeNamePrefix op2.OperationID ++ op2.OperationID ++ "Params"] with e | localParams
    · simp only [hdp]
    · simp only [hdp]
      rcases hsp : SortParamsByPath requestPath
          (FilterParameterDefinitionByType (globalParams ++ localParams) "path")
          with e | pathParams
      · simp only [hsp]
      · simp only [hsp]
        rw [GenerateBodyDefinitions_congr
          (typeNamePrefix op2.OperationID ++ op2.OperationID) hRB]
        rcases hb : GenerateBodyDefinitions
            (typeNamePrefix op2.OperationID ++ op2.OperationID) op2.RequestBody
            with e | ⟨bds, tds⟩
        · simp only [hb]
        · simp only [hb]
          rw [GenerateResponseDefinitions_congr
            (typeNamePrefix op2.OperationID ++ op2.OperationID) hResp]
          rcases hresp : GenerateResponseDefinitions
              (typeNamePrefix op2.OperationID ++ op2.OperationID) op2.Responses
              with e | rds
          · simp only [hresp]
          · simp only [hresp]
            rcases hs1 : op1.Security with _ | sec1 <;>
              rcases hs2 : op2.Security with _ | sec2 <;> rw [hs1, hs2] at hSec
            · simp only [hs1, hs2]
              rw [DescribeSecurityDefinition_congr hsw]
              rcases hrb1 : op1.RequestBody with _ | rb1 <;>
                rcases hrb2 : op2.RequestBody with _ | rb2 <;> rw [hrb1, hrb2] at hRB <;>
                simp only [hrb1, hrb2]
              · simp only [GenerateTypeDefsForOperation]
                split
                case _ e heqX => simp only [heqX]
                case _ tds2 heqX => simp only [heqX, Except.map, stripSpec]
              · exact False.elim hRB
              · exact False.elim hRB
              · rw [hRB.2.1]
                simp only [GenerateTypeDefsForOperation]
                split
                case _ e heqX => simp only [heqX]
                case _ tds2 heqX => simp only [heqX, Except.map, stripSpec]
            · exact False.elim hSec
            · exact False.elim hSec
            · simp only [hs1, hs2]
              rw [DescribeSecurityDefinition_congr hSec]
              rcases hrb1 : op1.RequestBody with _ | rb1 <;>
                rcases hrb2 : op2.RequestBody with _ | rb2 <;> rw [hrb1, hrb2] at hRB <;>
                simp only [hrb1, hrb2]
              · simp only [GenerateTypeDefsForOperation]
                split
                case _ e heqX => simp only [heqX]
                case _ tds2 heqX => simp only [heqX, Except.map, stripSpec]
              · exact False.elim hRB
              · exact False.elim hRB
              · rw [hRB.2.1]
                simp only [GenerateTypeDefsForOperation]
                split
                case _ e heqX => simp only [heqX]
                case _ tds2 heqX => simp only [heqX, Except.map, stripSpec]


theorem opsLoop_congr {sw1 sw2 : T} (hsw : SecReqsEquiv sw1.Security sw2.Security)
    (requestPath : String) {p1 p2 : PathItem} (hpiS : p1.Servers = p2.Servers)
    (globalParams : List ParameterDefinition)
    {po1 po2 : GoMap Operation} (hpo : MapEquiv OpEquiv po1 po2) :
    ∀ ks, Except.map (List.map stripSpec)
        (opsLoop sw1 requestPath p1 globalParams po1 ks) =
      Except.map (List.map stripSpec) (opsLoop sw2 requestPath p2 globalParams po2 ks) := by
  intro ks
  induction ks with
  | nil => rfl
  | cons k rest ih =>
    have hpc := processOperation_congr hsw requestPath hpiS globalParams hpo k
    simp only [opsLoop]
    rcases h1 : processOperation sw1 requestPath p1 globalParams po1 k with e1 | od1 <;>
      rcases h2 : processOperation sw2 requestPath p2 globalParams po2 k with e2 | od2 <;>
      rw [h1, h2] at hpc <;> simp only [Except.map, Except.error.injEq, Except.ok.injEq] at hpc
    · simp only [h1, h2, hpc, Except.map]
    · exact Except.noConfusion hpc
    · exact Except.noConfusion hpc
    · simp only [h1, h2]
      rcases hr1 : opsLoop sw1 requestPath p1 globalParams po1 rest with er1 | ods1 <;>
        rcases hr2 : opsLoop sw2 requestPath p2 globalParams po2 rest with er2 | ods2 <;>
        rw [hr1, hr2] at ih <;>
        simp only [Except.map, Except.error.injEq, Except.ok.injEq] at ih
      · simp only [ih, Except.map]
      · exact Except.noConfusion ih
      · exact Except.noConfusion ih
      · simp only [Except.map, List.map_cons, hpc, ih]

theorem processPath_congr {sw1 sw2 : T} (hdoc : DocEquiv sw1 sw2) (requestPath : String) :
    Except.map (List.map stripSpec) (processPath sw1 requestPath) =
    Except.map (List.map stripSpec) (processPath sw2 requestPath) := by
  obtain ⟨hpaths, hsw⟩ := hdoc
  have hpi : PathItemEquiv (lookupD sw1.Paths requestPath {})
      (lookupD sw2.Paths requestPath {}) := by
    have hlk := mapEquiv_lookup hpaths requestPath
    rcases h1 : lookupGo sw1.Paths requestPath with _ | v1 <;>
      rcases h2 : lookupGo sw2.Paths requestPath with _ | v2 <;> rw [h1, h2] at hlk <;>
      simp only [lookupD, h1, h2, Option.getD] <;>
      first
        | exact PathItemEquiv_refl _
        | exact False.elim hlk
        | exact hlk
  obtain ⟨hP, hS, hOps⟩ := hpi
  simp only [processPath]
  rw [hP]
  rcases hd : DescribeParameters (lookupD sw2.Paths requestPath {}).Parameters []
      with e | gp
  · simp only [hd]
  · simp only [hd, SortedOperationsKeys]
    rw [sortedKeys_eq hOps.1]
    exact opsLoop_congr hsw requestPath hS gp hOps _

theorem pathsLoop_congr {sw1 sw2 : T} (hdoc : DocEquiv sw1 sw2) :
    ∀ ks, Except.map (List.map stripSpec) (pathsLoop sw1 ks) =
      Except.map (List.map stripSpec) (pathsLoop sw2 ks) := by
  intro ks
  induction ks with
  | nil => rfl
  | cons rp rest ih =>
    have hpp := processPath_congr hdoc rp
    simp only [pathsLoop]
    rcases h1 : processPath sw1 rp with e1 | ods1 <;>
      rcases h2 : processPath sw2 rp with e2 | ods2 <;> rw [h1, h2] at hpp <;>
      simp only [Except.map, Except.error.injEq, Except.ok.injEq] at hpp
    · simp only [h1, h2, hpp, Except.map]
    · exact Except.noConfusion hpp
    · exact Except.noConfusion hpp
    · simp only [h1, h2]
      rcases hr1 : pathsLoop sw1 rest with er1 | ods3 <;>
        rcases hr2 : pathsLoop sw2 rest with er2 | ods4 <;> rw [hr1, hr2] at ih <;>
        simp only [Except.map, Except.error.injEq, Except.ok.injEq] at ih
      · simp only [ih, Except.map]
      · exact Except.noConfusion ih
      · exact Except.noConfusion ih
      · simp only [Except.map, List.map_append, hpp, ih]

/-- C7: compilation is deterministic over map iteration order — two
documents that are the same map value at every unordered collection (paths,
operations per path, content-type maps, response maps, header maps,
security requirement maps, each given as an association list in a possibly
different order) compile to the same list of operation definitions.  The
carried `Spec` field of each record is erased by `stripSpec` before
comparing: it stores the raw document operation, whose embedded association
lists differ only in an order no Go program can observe on a map value. -/
theorem C7_deterministic (d1 d2 : T) (h : DocEquiv d1 d2) :
    Except.map (List.map stripSpec) (OperationDefinitions d1) =
    Except.map (List.map stripSpec) (OperationDefinitions d2) := by
  simp only [OperationDefinitions, SortedPathsKeys]
  rw [sortedKeys_eq h.1.1]
  exact pathsLoop_congr h _



theorem mem_of_lookupGo {α : Type} {m : GoMap α} {k : String} {v : α}
    (h : lookupGo m k = some v) : (k, v) ∈ m := by
  induction m with
  | nil => exact absurd h (by simp [lookupGo])
  | cons p rest ih =>
    rcases p with ⟨k1, v1⟩
    simp only [lookupGo] at h
    split_ifs at h with hk
    · cases Option.some.inj h
      subst hk
      exact List.mem_cons_self _ _
    · exact List.mem_cons_of_mem _ (ih h)

theorem lookupGo_of_mem_nodup {α : Type} {m : GoMap α} (hnd : (mapKeys m).Nodup)
    {k : String} {v : α} (hm : (k, v) ∈ m) : lookupGo m k = some v := by
  induction m with
  | nil => cases hm
  | cons p rest ih =>
    rcases p with ⟨k1, v1⟩
    rw [mapKeys, List.map_cons, List.nodup_cons] at hnd
    rcases List.mem_cons.mp hm with heq | hm2
    · obtain ⟨hk, hv⟩ := Prod.mk.injEq .. ▸ heq
      simp [lookupGo, hk, hv]
    · have hk : k1 ≠ k := by
        intro he
        exact hnd.1 (he ▸ (List.mem_map.mpr ⟨(k, v), hm2, rfl⟩))
      simp only [lookupGo, if_neg hk]
      exact ih hnd.2 hm2

/-- A permutation of an association list with distinct keys is the same map
value (up to any reflexive value relation). -/
theorem MapEquiv_of_perm {α : Type} {R : α → α → Prop} (hR : ∀ v, R v v)
    {m1 m2 : GoMap α} (hp : m1.Perm m2) (hnd : (mapKeys m1).Nodup) :
    MapEquiv R m1 m2 := by
  have hnd2 : (mapKeys m2).Nodup := ((hp.map Prod.fst).nodup_iff).mp hnd
  refine ⟨hp.map Prod.fst, fun k v1 v2 h1 h2 => ?_⟩
  have hm2 : (k, v1) ∈ m2 := hp.subset (mem_of_lookupGo h1)
  have hl2 := lookupGo_of_mem_nodup hnd2 hm2
  rw [h2] at hl2
  cases Option.some.inj hl2
  exact hR v1

/-- Association lists that agree key-by-key (with `R`-related values) are
the same map value. -/
theorem MapEquiv_of_forall₂ {α : Type} {R : α → α → Prop} {m1 m2 : GoMap α}
    (h : List.Forall₂ (fun p q => p.1 = q.1 ∧ R p.2 q.2) m1 m2) : MapEquiv R m1 m2 := by
  constructor
  · have hk : mapKeys m1 = mapKeys m2 := by
      induction h with
      | nil => rfl
      | cons hpq htail ih =>
        simp only [mapKeys, List.map_cons] at ih ⊢
        rw [hpq.1, ih]
    rw [hk]
  · intro k v1 v2 h1 h2
    induction h with
    | nil => exact absurd h1 (by simp [lookupGo])
    | cons hpq htail ih =>
      rename_i p q l1 l2
      rcases p with ⟨k1, w1⟩
      rcases q with ⟨k2, w2⟩
      obtain ⟨hkq, hvq⟩ := hpq
      simp only at hkq hvq
      simp only [lookupGo] at h1 h2
      by_cases hk : k1 = k
      · rw [if_pos hk] at h1
        rw [if_pos (hkq ▸ hk)] at h2
        cases Option.some.inj h1
        cases Option.some.inj h2
        exact hvq
      · rw [if_neg hk] at h1
        rw [if_neg (hkq ▸ hk)] at h2
        exact ih h1 h2

/-- A document whose single operation declares its responses in one order. -/
def c7DocA : T :=
  { Paths := [("/x",
      { Operations := [("GET",
          { OperationID := "getX",
            Responses := [("200", some { Value := { Description := some "ok" } }),
                          ("default", some { Value := { Description := some "other" } })] })] })] }

/-- The same document value with the response map given in the opposite
iteration order. -/
def c7DocB : T :=
  { Paths := [("/x",
      { Operations := [("GET",
          { OperationID := "getX",
            Responses := [("default", some { Value := { Description := some "other" } }),
                          ("200", some { Value := { Description := some "ok" } })] })] })] }

/-- The two concrete documents are the same map value. -/
theorem c7DocAB_equiv : DocEquiv c7DocA c7DocB := by
  refine ⟨MapEquiv_of_forall₂ ?_, SecReqsEquiv_refl _⟩
  refine List.Forall₂.cons ⟨rfl, rfl, rfl, MapEquiv_of_forall₂ ?_⟩ List.Forall₂.nil
  refine List.Forall₂.cons ⟨rfl, rfl, rfl, rfl, rfl, trivial, ?_,
    OptRel_refl SecReqsEquiv_refl _, rfl⟩ List.Forall₂.nil
  exact MapEquiv_of_perm (OptRel_refl RespEquiv_refl)
    (by decide) (by decide)

/-- C7 witness: the two orderings of the concrete document compile to the
same operation list. -/
theorem C7_deterministic_witness :
    Except.map (List.map stripSpec) (OperationDefinitions c7DocA) =
    Except.map (List.map stripSpec) (OperationDefinitions c7DocB) :=
  C7_deterministic c7DocA c7DocB c7DocAB_equiv


end Codegen
